import Mathlib

/-!
Verification of the RobustLinksV2 datetime/URI parsing-and-encoding engine
(`robustlinks2.ts` and its variants).  The TypeScript source is shallowly
embedded: strings are `String`/`List Char`, the ECMAScript `Date` object is
modelled by its civil UTC field view (`JsDate`), fallible operations return
`Option`/`Except`, and platform primitives used by the source
(`Date.UTC`, `Date.prototype.toISOString`, `new URL`, `String.prototype.replace`,
`RegExp.prototype.test` for the pattern fragment actually used) are modelled
from their standard ECMAScript/WHATWG semantics.
-/

/-! ## Characters and decimal digits -/

/-- Decimal digit character for a value `0..9` (values `≥ 9` clamp to `'9'`;
only applied to values `< 10`). -/
def digitChar : Nat → Char
  | 0 => '0' | 1 => '1' | 2 => '2' | 3 => '3' | 4 => '4'
  | 5 => '5' | 6 => '6' | 7 => '7' | 8 => '8' | _ => '9'

/-- ASCII decimal digit test, the semantics of `\d` in a JavaScript regex
without the `u` flag. -/
def isDigitCh (c : Char) : Bool := 48 ≤ c.toNat && c.toNat ≤ 57

/-- Numeric value of a digit character. -/
def dv (c : Char) : Nat := c.toNat - 48

/-! ## Decimal rendering

`pad2L`/`pad4L`/`pad6L` render a number zero-padded to a fixed width by digit
extraction, the behaviour of ECMAScript `String(n).padStart(w, "0")` for `n`
below `10^w` (and of the fixed-width fields of `Date.prototype.toISOString`).
`natStr` renders an arbitrary natural in decimal, the behaviour of
ECMAScript `String(n)`. -/

/-- Two-digit zero-padded decimal rendering (for values `< 100`). -/
def pad2L (n : Nat) : List Char := [digitChar (n / 10 % 10), digitChar (n % 10)]

/-- Four-digit zero-padded decimal rendering (for values `< 10000`). -/
def pad4L (n : Nat) : List Char :=
  [digitChar (n / 1000 % 10), digitChar (n / 100 % 10), digitChar (n / 10 % 10),
    digitChar (n % 10)]

/-- Six-digit zero-padded decimal rendering (for values `< 1000000`). -/
def pad6L (n : Nat) : List Char :=
  [digitChar (n / 100000 % 10), digitChar (n / 10000 % 10), digitChar (n / 1000 % 10),
    digitChar (n / 100 % 10), digitChar (n / 10 % 10), digitChar (n % 10)]

/-- Fuel-driven decimal digit accumulator (structural recursion so that the
kernel can evaluate it). The fuel is always taken large enough. -/
def natStrAux : Nat → Nat → List Char → List Char
  | 0, _, acc => acc
  | fuel + 1, n, acc =>
    if n < 10 then digitChar n :: acc
    else natStrAux fuel (n / 10) (digitChar (n % 10) :: acc)

/-- Decimal rendering of a natural number, as ECMAScript `String(n)`. -/
def natStr (n : Nat) : List Char := natStrAux (n + 1) n []

/-- Decimal rendering of an integer, as ECMAScript `String(i)`. -/
def intStr (i : Int) : List Char :=
  if i < 0 then '-' :: natStr i.natAbs else natStr i.toNat

/-! ## The ECMAScript `Date` model

A `Date` holding a finite time value is, for every operation the source
performs on it (`getUTCFullYear` … `getUTCSeconds`, `toISOString`), fully
described by its civil UTC fields.  `JsDate` is that field view; `dateUTC`
models the `Date.UTC(...)`-based constructor calls of `parseDatetime`,
including ECMAScript's normalization of out-of-range arguments
(month overflow into years, day/hour/minute/second overflow into days) and
the mapping of two-digit years `0..99` to `1900..1999`. -/

structure JsDate where
  year : Int
  month : Int
  day : Int
  hour : Int
  minute : Int
  second : Int
deriving DecidableEq, Repr

/-- Leap-year test of the proleptic Gregorian calendar (used by ECMAScript). -/
def isLeap (y : Int) : Bool := (y % 4 == 0 && y % 100 != 0) || y % 400 == 0

/-- Number of days in a month (`m` is `1..12`). -/
def daysInMonth (y m : Int) : Int :=
  if m = 4 ∨ m = 6 ∨ m = 9 ∨ m = 11 then 30
  else if m = 2 then (if isLeap y then 29 else 28)
  else 31

/-- Successor day in the civil calendar. -/
def nextDay : Int × Int × Int → Int × Int × Int
  | (y, m, d) =>
    if d < daysInMonth y m then (y, m, d + 1)
    else if m < 12 then (y, m + 1, 1)
    else (y + 1, 1, 1)

/-- Predecessor day in the civil calendar. -/
def prevDay : Int × Int × Int → Int × Int × Int
  | (y, m, d) =>
    if 1 < d then (y, m, d - 1)
    else if 1 < m then (y, m - 1, daysInMonth y (m - 1))
    else (y - 1, 12, 31)

/-- Iterate `nextDay`. -/
def nextDayIter : Int × Int × Int → Nat → Int × Int × Int
  | p, 0 => p
  | p, k + 1 => nextDayIter (nextDay p) k

/-- Iterate `prevDay`. -/
def prevDayIter : Int × Int × Int → Nat → Int × Int × Int
  | p, 0 => p
  | p, k + 1 => prevDayIter (prevDay p) k

/-- Move a civil date by a signed number of days. -/
def addDaysCivil (p : Int × Int × Int) (off : Int) : Int × Int × Int :=
  if off < 0 then prevDayIter p off.natAbs else nextDayIter p off.toNat

/-- Model of `new Date(Date.UTC(y, m0, d, h, mi, s))` as used by
`parseDatetime`: `m0` is the 0-indexed month.  Follows ECMAScript `Date.UTC`:
years `0..99` are interpreted as `1900..1999`, the month is normalized into
`0..11` carrying into the year, and the time of day plus the day-of-month are
folded into the civil day (`MakeDay`/`MakeTime` semantics in the civil view). -/
def dateUTC (y m0 d h mi s : Int) : JsDate :=
  let yy : Int := if 0 ≤ y ∧ y ≤ 99 then y + 1900 else y
  let ym : Int := yy + Int.fdiv m0 12
  let mn : Int := Int.emod m0 12
  let tsec : Int := h * 3600 + mi * 60 + s
  let extraD : Int := Int.fdiv tsec 86400
  let sod : Int := Int.emod tsec 86400
  let p := addDaysCivil (ym, mn + 1, 1) (d - 1 + extraD)
  { year := p.1, month := p.2.1, day := p.2.2,
    hour := sod / 3600, minute := sod % 3600 / 60, second := sod % 60 }

/-- Date part of `Date.prototype.toISOString`, i.e. the value of
`date.toISOString().split('T')[0]` used by `createRobustLinkHtml` and
`updateAnchorToRobustLink`: years `0..9999` are rendered as four digits,
other years in the expanded six-digit form with explicit sign. -/
def isoDatePartChars (dt : JsDate) : List Char :=
  (if dt.year < 0 then '-' :: pad6L dt.year.natAbs
   else if dt.year ≤ 9999 then pad4L dt.year.toNat
   else '+' :: pad6L dt.year.toNat) ++
    '-' :: pad2L dt.month.toNat ++ '-' :: pad2L dt.day.toNat

/-- String form of `isoDatePartChars`. -/
def isoDatePart (dt : JsDate) : String := String.mk (isoDatePartChars dt)

/-! ## The Datetime Codec (`RobustLinksV2.parseDatetime`, `formatDateTime`)

`parseDatetime` in the source tries four anchored regular expressions in
order.  Each regex fixes the exact length and separator positions of the
string and captures all-digit groups, which `parseInt` then reads in decimal;
the matchers below are those regexes written out on the character list. -/

/-- Matcher for `/^(\d{4})-(\d{2})-(\d{2})$/` returning the three
`parseInt`-ed groups. -/
def matchIsoDate : List Char → Option (Nat × Nat × Nat)
  | [y1, y2, y3, y4, s1, m1, m2, s2, d1, d2] =>
    if isDigitCh y1 && isDigitCh y2 && isDigitCh y3 && isDigitCh y4 &&
        (s1 = '-') && isDigitCh m1 && isDigitCh m2 && (s2 = '-') &&
        isDigitCh d1 && isDigitCh d2 then
      some (((dv y1 * 10 + dv y2) * 10 + dv y3) * 10 + dv y4,
        dv m1 * 10 + dv m2, dv d1 * 10 + dv d2)
    else none
  | _ => none

/-- Matcher for `/^(\d{4})-(\d{2})-(\d{2})T(\d{2}):(\d{2}):(\d{2})Z$/`. -/
def matchIsoDatetime : List Char → Option (Nat × Nat × Nat × Nat × Nat × Nat)
  | [y1, y2, y3, y4, s1, m1, m2, s2, d1, d2, t, h1, h2, c1, i1, i2, c2, e1, e2, z] =>
    if isDigitCh y1 && isDigitCh y2 && isDigitCh y3 && isDigitCh y4 &&
        (s1 = '-') && isDigitCh m1 && isDigitCh m2 && (s2 = '-') &&
        isDigitCh d1 && isDigitCh d2 && (t = 'T') && isDigitCh h1 && isDigitCh h2 &&
        (c1 = ':') && isDigitCh i1 && isDigitCh i2 && (c2 = ':') &&
        isDigitCh e1 && isDigitCh e2 && (z = 'Z') then
      some (((dv y1 * 10 + dv y2) * 10 + dv y3) * 10 + dv y4,
        dv m1 * 10 + dv m2, dv d1 * 10 + dv d2,
        dv h1 * 10 + dv h2, dv i1 * 10 + dv i2, dv e1 * 10 + dv e2)
    else none
  | _ => none

/-- Matcher for `/^(\d{4})(\d{2})(\d{2})$/`. -/
def matchWaDate : List Char → Option (Nat × Nat × Nat)
  | [y1, y2, y3, y4, m1, m2, d1, d2] =>
    if isDigitCh y1 && isDigitCh y2 && isDigitCh y3 && isDigitCh y4 &&
        isDigitCh m1 && isDigitCh m2 && isDigitCh d1 && isDigitCh d2 then
      some (((dv y1 * 10 + dv y2) * 10 + dv y3) * 10 + dv y4,
        dv m1 * 10 + dv m2, dv d1 * 10 + dv d2)
    else none
  | _ => none

/-- Matcher for `/^(\d{4})(\d{2})(\d{2})(\d{2})(\d{2})(\d{2})$/`. -/
def matchWaDatetime : List Char → Option (Nat × Nat × Nat × Nat × Nat × Nat)
  | [y1, y2, y3, y4, m1, m2, d1, d2, h1, h2, i1, i2, e1, e2] =>
    if isDigitCh y1 && isDigitCh y2 && isDigitCh y3 && isDigitCh y4 &&
        isDigitCh m1 && isDigitCh m2 && isDigitCh d1 && isDigitCh d2 &&
        isDigitCh h1 && isDigitCh h2 && isDigitCh i1 && isDigitCh i2 &&
        isDigitCh e1 && isDigitCh e2 then
      some (((dv y1 * 10 + dv y2) * 10 + dv y3) * 10 + dv y4,
        dv m1 * 10 + dv m2, dv d1 * 10 + dv d2,
        dv h1 * 10 + dv h2, dv i1 * 10 + dv i2, dv e1 * 10 + dv e2)
    else none
  | _ => none

/-- Embedding of `RobustLinksV2.parseDatetime` (robustlinks2.ts lines 417-469):
the four anchored regexes are tried in the source's order; a successful match
feeds its `parseInt`-ed groups to `Date.UTC`, date-only forms with the time
fixed at noon UTC; no match yields `null`. -/
def parseDatetime (s : String) : Option JsDate :=
  match matchIsoDate s.data with
  | some (y, m, d) => some (dateUTC y ((m : Int) - 1) d 12 0 0)
  | none =>
    match matchIsoDatetime s.data with
    | some (y, m, d, h, mi, sec) => some (dateUTC y ((m : Int) - 1) d h mi sec)
    | none =>
      match matchWaDate s.data with
      | some (y, m, d) => some (dateUTC y ((m : Int) - 1) d 12 0 0)
      | none =>
        match matchWaDatetime s.data with
        | some (y, m, d, h, mi, sec) => some (dateUTC y ((m : Int) - 1) d h mi sec)
        | none => none

/-- Embedding of the private `RobustLinksV2.formatDateTime` (robustlinks2.ts
lines 767-776): the year is rendered by `String(...)` with no padding, the
five other fields by `String(...).padStart(2, '0')`, and the six renderings
are concatenated. -/
def formatDateTime (dt : JsDate) : String :=
  String.mk (intStr dt.year ++ pad2L dt.month.toNat ++ pad2L dt.day.toNat ++
    pad2L dt.hour.toNat ++ pad2L dt.minute.toNat ++ pad2L dt.second.toNat)

/-! ## The URI Validator (`RobustLinksV2.isValidAbsoluteUrl`)

The source validates by handing the string to the platform's `new URL(...)`
(WHATWG URL Standard) and checking `protocol` and `hostname` of the result.
`jsURL` models the parts of that parser the validator observes, for an input
with no base URL: input trimming, scheme parsing, and — for the `http`/`https`
special schemes — authority/host extraction with userinfo and port handling,
percent-decoding and the forbidden-domain-code-point check.  Strings with a
non-`http(s)` scheme are represented as parsing to that protocol with an
empty hostname (sufficient because the validator rejects every such scheme),
and IDNA is modelled as ASCII lowercasing only (all inputs of interest are
ASCII). -/

structure URLRec where
  protocol : String
  hostname : String
deriving DecidableEq, Repr

def isTabNL (c : Char) : Bool := c = '\t' || c = '\n' || c = '\r'

def isC0Space (c : Char) : Bool := c.toNat ≤ 32

def isAsciiAlpha (c : Char) : Bool :=
  ('a' ≤ c && c ≤ 'z') || ('A' ≤ c && c ≤ 'Z')

def isSchemeCh (c : Char) : Bool :=
  isAsciiAlpha c || isDigitCh c || c = '+' || c = '-' || c = '.'

def asciiLower (c : Char) : Char :=
  if 'A' ≤ c && c ≤ 'Z' then Char.ofNat (c.toNat + 32) else c

def isHexCh (c : Char) : Bool :=
  isDigitCh c || ('a' ≤ c && c ≤ 'f') || ('A' ≤ c && c ≤ 'F')

def hexVal (c : Char) : Nat :=
  if isDigitCh c then dv c
  else if 'a' ≤ c && c ≤ 'f' then c.toNat - 87
  else c.toNat - 55

/-- Percent-decoding; an invalid escape sequence is left as a literal `%`. -/
def pctDecode : List Char → List Char
  | '%' :: a :: b :: rest =>
    if isHexCh a && isHexCh b then Char.ofNat (16 * hexVal a + hexVal b) :: pctDecode rest
    else '%' :: pctDecode (a :: b :: rest)
  | c :: rest => c :: pctDecode rest
  | [] => []

/-- Forbidden domain code points of the WHATWG URL Standard. -/
def forbiddenDomainCh (c : Char) : Bool :=
  c.toNat ≤ 31 || c = ' ' || c = '#' || c = '/' || c = ':' || c = '<' || c = '>' ||
    c = '?' || c = '@' || c = '[' || c = '\\' || c = ']' || c = '^' || c = '|' ||
    c = '%' || c.toNat = 127

/-- Characters ending the authority component. -/
def authTerm (c : Char) : Bool := c = '/' || c = '\\' || c = '?' || c = '#'

/-- Drop everything up to and including the last `'@'` (userinfo). -/
def afterLastAt (cs : List Char) : List Char :=
  (cs.reverse.takeWhile (fun c => c ≠ '@')).reverse

/-- Strip leading and trailing C0 controls and spaces. -/
def trimC0Space (cs : List Char) : List Char :=
  ((cs.dropWhile isC0Space).reverse.dropWhile isC0Space).reverse

/-- Scheme scanner: an ASCII alpha followed by scheme characters up to `':'`. -/
def schemeGo : List Char → List Char → Option (List Char × List Char)
  | acc, ':' :: rest => some (acc.reverse, rest)
  | acc, c :: rest => if isSchemeCh c then schemeGo (c :: acc) rest else none
  | _, [] => none

def splitScheme : List Char → Option (List Char × List Char)
  | [] => none
  | c :: cs => if isAsciiAlpha c then schemeGo [c] cs else none

def portDigitsOk (p : List Char) : Bool :=
  p.all isDigitCh && decide (p.foldl (fun acc c => 10 * acc + dv c) 0 ≤ 65535)

/-- Characters we accept inside an IPv6 bracket (model simplification; no
claim exercises IPv6 hosts). -/
def ip6Ch (c : Char) : Bool := isHexCh c || c = ':' || c = '.'

/-- Host-and-port parsing for a special scheme; returns the hostname. -/
def parseHostPort (hp : List Char) : Option (List Char) :=
  match hp with
  | '[' :: rest =>
    let inner := rest.takeWhile (fun c => c ≠ ']')
    let after := (rest.dropWhile (fun c => c ≠ ']')).tail
    if (']' ∈ rest) && !inner.isEmpty && inner.all ip6Ch &&
        (after.isEmpty || (after.head? = some ':' && portDigitsOk after.tail)) then
      some ('[' :: inner ++ [']'])
    else none
  | _ =>
    let host := hp.takeWhile (fun c => c ≠ ':')
    let port := (hp.dropWhile (fun c => c ≠ ':')).tail
    let dec := pctDecode host
    if !host.isEmpty && (hp.all (fun c => c ≠ ':') || portDigitsOk port) &&
        dec.all (fun c => !forbiddenDomainCh c) then
      some (dec.map asciiLower)
    else none

/-- Model of `new URL(input)` (no base URL), restricted to the fields the
source observes.  `none` models a thrown `TypeError`. -/
def jsURL (s : String) : Option URLRec :=
  let cs := (trimC0Space s.data).filter (fun c => !isTabNL c)
  match splitScheme cs with
  | none => none
  | some (sch, rest) =>
    let schemeL := sch.map asciiLower
    if schemeL = "http".data ∨ schemeL = "https".data then
      let rest1 := rest.dropWhile (fun c => c = '/' || c = '\\')
      let auth := rest1.takeWhile (fun c => !authTerm c)
      match parseHostPort (afterLastAt auth) with
      | some host => some ⟨String.mk (schemeL ++ [':']), String.mk host⟩
      | none => none
    else
      some ⟨String.mk (schemeL ++ [':']), ""⟩

/-- Embedding of the static `RobustLinksV2.isValidAbsoluteUrl`
(robustlinks2.ts lines 399-408): `new URL(url)` in a `try`, then the protocol
is compared against `'http:'`/`'https:'` and the hostname must be non-empty;
a parse throw yields `false`. -/
def isValidAbsoluteUrl (url : String) : Bool :=
  match jsURL url with
  | some u => (u.protocol = "http:" || u.protocol = "https:") && decide (0 < u.hostname.length)
  | none => false

/-! ## The Snapshot List Codec (`RobustLinksV2.parseVersionUrl`) -/

structure RobustLinkSnapshot where
  uri : String
  datetime : Option String
deriving DecidableEq, Repr

/-- Split a character list at every `' '` (the behaviour of
`String.prototype.split(' ')`: one piece per gap, empty pieces for adjacent
separators). -/
def splitAtSpaces : List Char → List (List Char)
  | [] => [[]]
  | ' ' :: rest => [] :: splitAtSpaces rest
  | c :: rest =>
    match splitAtSpaces rest with
    | t :: ts => (c :: t) :: ts
    | [] => [[c]]

/-- Tokenisation performed by `parseVersionUrl`:
`versionUrlString.split(' ').filter(part => part.length > 0)`. -/
def spaceTokens (s : String) : List String :=
  ((splitAtSpaces s.data).filter (fun cs => !cs.isEmpty)).map String.mk

/-- Diagnostic text for a skipped token (`console.warn` in the source). -/
def skipWarning (uri : String) : String :=
  "RobustLinksV2: Skipping invalid URI in data-versionurl: " ++ uri

/-- The left-to-right scan loop of `parseVersionUrl` (the `while` over
`parts`), returning the snapshots together with the emitted diagnostics. -/
def scanSnapshots : List String → List RobustLinkSnapshot × List String
  | [] => ([], [])
  | u :: rest =>
    if !isValidAbsoluteUrl u then
      ((scanSnapshots rest).1, skipWarning u :: (scanSnapshots rest).2)
    else
      match rest with
      | d :: rest2 =>
        if (parseDatetime d).isSome then
          (⟨u, some d⟩ :: (scanSnapshots rest2).1, (scanSnapshots rest2).2)
        else
          (⟨u, none⟩ :: (scanSnapshots (d :: rest2)).1, (scanSnapshots (d :: rest2)).2)
      | [] => ([⟨u, none⟩], [])

/-- Embedding of the static `RobustLinksV2.parseVersionUrl` (robustlinks2.ts
lines 476-512).  `none` models an absent attribute; the falsy-check
`if (!versionUrlString) return []` also catches the empty string. -/
def parseVersionUrl (versionUrlString : Option String) : List RobustLinkSnapshot :=
  match versionUrlString with
  | none => []
  | some s => if s = "" then [] else (scanSnapshots (spaceTokens s)).1

/-- Diagnostics emitted by the same call (the `console.warn` channel). -/
def parseVersionUrlWarnings (versionUrlString : Option String) : List String :=
  match versionUrlString with
  | none => []
  | some s => if s = "" then [] else (scanSnapshots (spaceTokens s)).2

/-! ## The Robust Link Record Assembler (`RobustLinksV2.parseRobustLink`) -/

/-- Raw `data-` attributes handed to the assembler
(`RobustLinkRawAttributes`): `href` is always a string (possibly empty), the
three others may be absent. -/
structure RobustLinkRawAttributes where
  href : String
  originalurl : Option String
  versiondate : Option String
  versionurl : Option String
deriving DecidableEq, Repr

structure ParsedRobustLink where
  href : String
  originalUrl : String
  versionDate : JsDate
  versionSnapshots : List RobustLinkSnapshot
  linkText : Option String
deriving DecidableEq, Repr

/-- Error taxonomy of the assembler and the Memento URI builder; each
constructor corresponds to one `throw new Error(...)` site. -/
inductive RLError where
  | MissingHref
  | MissingOriginalUrl
  | MissingVersionDate
  | InvalidHref
  | InvalidOriginalUrl
  | InvalidVersionDate
deriving DecidableEq, Repr

/-- Truthiness of an optional string attribute: JavaScript `!x` is true
exactly for an absent value or the empty string. -/
def falsyOpt (o : Option String) : Bool :=
  match o with
  | none => true
  | some s => s = ""

/-- Embedding of `RobustLinksV2.parseRobustLink` (robustlinks2.ts lines
526-579), statement by statement: default `originalUrl := href` when
`!originalUrl && href`; then the three missing-attribute throws, the two
URI-validity throws, the `parseDatetime` throw, and finally the record. -/
def parseRobustLink (raw : RobustLinkRawAttributes) (defaultLinkText : Option String) :
    Except RLError ParsedRobustLink :=
  let originalUrl :=
    if falsyOpt raw.originalurl && !(raw.href = "") then some raw.href else raw.originalurl
  if raw.href = "" then .error .MissingHref
  else if falsyOpt originalUrl then .error .MissingOriginalUrl
  else if falsyOpt raw.versiondate then .error .MissingVersionDate
  else if !isValidAbsoluteUrl raw.href then .error .InvalidHref
  else if !isValidAbsoluteUrl (originalUrl.getD "") then .error .InvalidOriginalUrl
  else
    match parseDatetime (raw.versiondate.getD "") with
    | none => .error .InvalidVersionDate
    | some d =>
      .ok { href := raw.href, originalUrl := originalUrl.getD "",
            versionDate := d,
            versionSnapshots := parseVersionUrl raw.versionurl,
            linkText := defaultLinkText }

/-! ## Serialisation back to attribute form (`createRobustLinkHtml`) -/

/-- Write-back rule for the version date: the date component of the UTC
instant, `versionDate.toISOString().split('T')[0]` in the source. -/
def writeBackVersionDate (dt : JsDate) : String := isoDatePart dt

/-- One snapshot rendered for `data-versionurl`. -/
def formatSnapshotPart (s : RobustLinkSnapshot) : String :=
  s.uri ++ (match s.datetime with | some d => " " ++ d | none => "")

/-- Embedding of `RobustLinksV2.createRobustLinkHtml` (robustlinks2.ts lines
626-646). -/
def createRobustLinkHtml (p : ParsedRobustLink) : String :=
  let versionDateStr := writeBackVersionDate p.versionDate
  let versionUrlAttr :=
    if p.versionSnapshots.isEmpty then ""
    else " data-versionurl=\"" ++
      String.intercalate " " (p.versionSnapshots.map formatSnapshotPart) ++ "\""
  let linkText := match p.linkText with
    | some t => if t = "" then p.href else t
    | none => p.href
  "<a href=\"" ++ p.href ++ "\" data-originalurl=\"" ++ p.originalUrl ++
    "\" data-versiondate=\"" ++ versionDateStr ++ "\"" ++ versionUrlAttr ++ ">" ++
    linkText ++ "</a>"

/-! ## String replacement (`String.prototype.replace` with a string pattern)

`createMementoUri` relies on `template.replace(search, replacement)`, which
replaces only the first occurrence and interprets `$`-escape sequences in the
replacement string (ECMAScript `GetSubstitution`): `$$` is a literal `$`,
`$&` the matched text, a `$`-backquote the text before the match, `$'` the
text after it; anything else after `$` is preserved literally (a string
pattern has no capture groups). -/

/-- Index of the first occurrence of `pat` in `s` (`String.prototype.indexOf`). -/
def findSub (s pat : List Char) : Option Nat :=
  if pat.isPrefixOf s then some 0
  else
    match s with
    | [] => none
    | _ :: s2 => (findSub s2 pat).map (· + 1)

/-- ECMAScript `GetSubstitution` for a string search value (no captures):
`$$` is a literal dollar, `$&` the matched text, a dollar followed by the
code units 96 / 39 (backquote / apostrophe) the text before / after the
match; any other character sequence is preserved. -/
def getSubstitution : List Char → List Char → List Char → List Char → List Char
  | [], _, _, _ => []
  | c :: r, matched, before, after =>
    if c = '$' then
      match r with
      | [] => ['$']
      | c2 :: r2 =>
        if c2 = '$' then '$' :: getSubstitution r2 matched before after
        else if c2 = '&' then matched ++ getSubstitution r2 matched before after
        else if c2.toNat = 96 then before ++ getSubstitution r2 matched before after
        else if c2.toNat = 39 then after ++ getSubstitution r2 matched before after
        else '$' :: getSubstitution (c2 :: r2) matched before after
    else c :: getSubstitution r matched before after

/-- Model of `s.replace(pat, rep)` for string arguments: first occurrence
only, `GetSubstitution` applied to the replacement. -/
def jsReplaceFirst (s pat rep : String) : String :=
  match findSub s.data pat.data with
  | none => s
  | some i =>
    let before := s.data.take i
    let after := s.data.drop (i + pat.data.length)
    String.mk (before ++ getSubstitution rep.data pat.data before after ++ after)

/-- Replacement as the specification words it: the first occurrence of `pat`
replaced by `rep` inserted verbatim.  Spec-side definition, to be compared
with `jsReplaceFirst`. -/
def literalReplaceFirst (s pat rep : String) : String :=
  match findSub s.data pat.data with
  | none => s
  | some i => String.mk (s.data.take i ++ rep.data ++ s.data.drop (i + pat.data.length))

/-! ## The Memento URI Builder (`RobustLinksV2.createMementoUri`)

Embedded from the variant with the optional datetime (src/unnamed/part_000
lines 145-170); the robustlinks2.ts variant is its `some`-datetime path. -/

/-- The per-instance configuration the builder reads: `timeGate` and the
`urimPattern` derived from it in the constructor
(`this.urimPattern = `${this.timeGate}<datetime>/<urir>``). -/
structure RLConfig where
  timeGate : String
  urimPattern : String
deriving DecidableEq, Repr

/-- Constructor wiring of part_000: the pattern is the TimeGate base followed
by the two placeholders. -/
def mkRLConfig (timeGate : String) : RLConfig :=
  ⟨timeGate, timeGate ++ "<datetime>/<urir>"⟩

/-- Embedding of `RobustLinksV2.createMementoUri` (src/unnamed/part_000 lines
145-170): an invalid `originalUrl` throws; with a datetime both placeholders
are replaced via `String.prototype.replace`; without one the TimeGate base is
concatenated with the original URL. -/
def createMementoUri (cfg : RLConfig) (originalUrl : String) (dateTime : Option JsDate) :
    Except RLError String :=
  if !isValidAbsoluteUrl originalUrl then .error .InvalidOriginalUrl
  else
    match dateTime with
    | some dt =>
      .ok (jsReplaceFirst (jsReplaceFirst cfg.urimPattern "<datetime>" (formatDateTime dt))
        "<urir>" originalUrl)
    | none => .ok (cfg.timeGate ++ originalUrl)

/-! ## The Archive-Exclusion Classifier (`exclusions.isKnownArchive`)

The source compiles each pattern string by escaping literal dots
(`pattern.replace(/\./g, '\\.')`), anchoring it to the start
(`new RegExp(`^...`, 'i')`) and testing case-insensitively.  The patterns use
only a small regex fragment: literal characters, `s?`, `[0-9]+` and
`[0-9A-Z]{4}`; `RTok`/`rmatchF` model exactly that fragment with full
backtracking (so that the test is the existential "some way to match a
prefix" semantics of `RegExp.prototype.test` with `^`). -/

inductive RTok where
  | lit : Char → RTok
  | opt : Char → RTok
  | clsPlus : List (Char × Char) → RTok
  | clsRep : List (Char × Char) → Nat → RTok
deriving DecidableEq, Repr

/-- ECMAScript `Canonicalize` for the `i` flag (ASCII uppercase). -/
def canon (c : Char) : Char :=
  if 'a' ≤ c && c ≤ 'z' then Char.ofNat (c.toNat - 32) else c

/-- Case-insensitive character-class membership. -/
def inCls (rs : List (Char × Char)) (c : Char) : Bool :=
  rs.any (fun r => decide (canon r.1 ≤ canon c) && decide (canon c ≤ canon r.2))

def toksSize (ts : List RTok) : Nat :=
  (ts.map (fun t => match t with
    | .lit _ => 1 | .opt _ => 1 | .clsPlus _ => 1 | .clsRep _ n => n + 1)).sum + ts.length

/-- Fuel-driven backtracking matcher: `rmatchF fuel ts cs` decides whether
the token sequence `ts` matches some prefix of `cs`. -/
def rmatchF : Nat → List RTok → List Char → Bool
  | 0, _, _ => false
  | _ + 1, [], _ => true
  | f + 1, .lit c :: ts, cs =>
    match cs with
    | d :: cs2 => canon c = canon d && rmatchF f ts cs2
    | [] => false
  | f + 1, .opt c :: ts, cs =>
    rmatchF f ts cs ||
      (match cs with
       | d :: cs2 => canon c = canon d && rmatchF f ts cs2
       | [] => false)
  | f + 1, .clsPlus rs :: ts, cs =>
    match cs with
    | d :: cs2 => inCls rs d && (rmatchF f ts cs2 || rmatchF f (.clsPlus rs :: ts) cs2)
    | [] => false
  | f + 1, .clsRep rs (n + 1) :: ts, cs =>
    match cs with
    | d :: cs2 => inCls rs d && rmatchF f (.clsRep rs n :: ts) cs2
    | [] => false
  | f + 1, .clsRep _ 0 :: ts, cs => rmatchF f ts cs

/-- Prefix match with fuel ample for the matcher's lexicographic measure. -/
def rmatch (ts : List RTok) (cs : List Char) : Bool :=
  rmatchF ((cs.length + 1) * (toksSize ts + 1) + 1) ts cs

/-- Escape literal dots, `pattern.replace(/\./g, '\\.')` in the source. -/
def escapeDots : List Char → List Char
  | [] => []
  | '.' :: rest => '\\' :: '.' :: escapeDots rest
  | c :: rest => c :: escapeDots rest

/-- Character-class body parser (between `[` and `]`). -/
def parseClsItems : Nat → List Char → Option (List (Char × Char) × List Char)
  | 0, _ => none
  | _ + 1, ']' :: rest => some ([], rest)
  | f + 1, a :: '-' :: b :: rest =>
    if b = ']' then some ([(a, a), ('-', '-')], rest)
    else (parseClsItems f rest).map (fun pr => ((a, b) :: pr.1, pr.2))
  | f + 1, a :: rest => (parseClsItems f rest).map (fun pr => ((a, a) :: pr.1, pr.2))
  | _ + 1, [] => none

/-- Reader for the digits of a `{n}` counted quantifier, after the `{`. -/
def readCountGo : Nat → Nat → List Char → Option (Nat × List Char)
  | 0, _, _ => none
  | _ + 1, acc, '}' :: r => some (acc, r)
  | f + 1, acc, c :: r => if isDigitCh c then readCountGo f (10 * acc + dv c) r else none
  | _ + 1, _, [] => none

/-- Parser for the regex fragment used by the archive patterns. -/
def parseRxF : Nat → List Char → Option (List RTok)
  | 0, _ => none
  | _ + 1, [] => some []
  | f + 1, '[' :: rest =>
    match parseClsItems (rest.length + 1) rest with
    | none => none
    | some (rs, rest2) =>
      match rest2 with
      | '+' :: r => (parseRxF f r).map (.clsPlus rs :: ·)
      | '{' :: r =>
        match readCountGo (r.length + 1) 0 r with
        | some (n, r2) => (parseRxF f r2).map (.clsRep rs n :: ·)
        | none => none
      | _ => (parseRxF f rest2).map (.clsRep rs 1 :: ·)
  | f + 1, '\\' :: c :: rest =>
    match rest with
    | '?' :: r => (parseRxF f r).map (.opt c :: ·)
    | '+' :: r => (parseRxF f r).map (.clsPlus [(c, c)] :: ·)
    | _ => (parseRxF f rest).map (.lit c :: ·)
  | f + 1, c :: rest =>
    if c = '?' || c = '+' || c = '{' || c = '*' || c = '(' || c = ')' ||
        c = '|' || c = '^' || c = '$' then none
    else
      match rest with
      | '?' :: r => (parseRxF f r).map (.opt c :: ·)
      | '+' :: r => (parseRxF f r).map (.clsPlus [(c, c)] :: ·)
      | _ => (parseRxF f rest).map (.lit c :: ·)

/-- Compile one archive pattern: escape dots, parse the fragment.  `none`
models a pattern outside the fragment (never hit by the source's lists). -/
def compilePattern (p : String) : Option (List RTok) :=
  parseRxF (2 * p.data.length + 2) (escapeDots p.data)

/-- Model of `new RegExp('^' + processedPattern, 'i').test(url)`. -/
def regexTestCI (p : String) (url : String) : Bool :=
  match compilePattern p with
  | some ts => rmatch ts url.data
  | none => false

/-- The hard-coded pattern list of `exclusions.isKnownArchive`
(robustlinks2.ts lines 262-297), verbatim. -/
def archivePatterns : List String :=
  ["https?://web.archive.org/web/",
   "https?://web.archive.bibalex.org/web/",
   "https?://www.webarchive.org.uk/wayback/en/archive/",
   "https?://langzeitarchivierung.bib-bvb.de/wayback/",
   "https?://webcitation.org/",
   "https?://webarchive.loc.gov/all/",
   "https?://wayback.archive-it.org/all/",
   "https?://wayback.archive-it.org/[0-9]+/",
   "https?://webarchive.parliament.uk/[0-9]+/",
   "https?://webarchive.parliament.uk/[0-9]+tf_/",
   "https?://webarchive.nationalarchives.gov.uk/[0-9]+/",
   "https?://webarchive.nationalarchives.gov.uk/[0-9]+tf_/",
   "https?://archive.li/",
   "https?://archive.vn/",
   "https?://archive.fo/",
   "https?://archive.md/",
   "https?://archive.ph/",
   "https?://archive.today/",
   "https?://archive.is/",
   "https?://waext.banq.qc.ca/wayback/[0-9]+/",
   "https?://haw.nsk.hr/arhiva/",
   "https?://wayback.webarchiv.cz/wayback/[0-9]+/",
   "https?://wayback.vefsafn.is/wayback/[0-9]+/",
   "https?://arquivo.pt/wayback/[0-9]+/",
   "https?://arquivo.pt/wayback/[0-9]+if_/",
   "https?://perma-archives.org/warc/[0-9]+/",
   "https?://perma.cc/[0-9A-Z]{4}-[0-9A-Z]{4}/",
   "https?://wayback.padicat.cat/wayback/[0-9]+/",
   "https?://archive.aueb.gr/services/web/[0-9]+/",
   "https?://digital.library.yorku.ca/wayback/[0-9]+/",
   "https?://veebiarhiiv.digar.ee/a/[0-9]+/",
   "https?://webarchive.nrscotland.gov.uk/[0-9]+/",
   "https?://nukrobia.nuk.uni-lj.si:8080/wayback/[0-9]+/",
   "https?://swap.stanford.edu/[0-9]+/"]

/-- Classification against an arbitrary compiled pattern list (the
`archivePatterns.some(...)` body of `exclusions.isKnownArchive`). -/
def isKnownArchiveWith (pats : List String) (url : String) : Bool :=
  pats.any (fun p => regexTestCI p url)

/-- Embedding of `exclusions.isKnownArchive` / `RobustLinksV2.isArchiveUrl`
(robustlinks2.ts lines 299-318 and 654-656). -/
def isArchiveUrl (url : String) : Bool :=
  isKnownArchiveWith archivePatterns url

/-- Classifier state of the asynchronously-loading variant
(src/unnamed/part_000): `none` models `_archivePatternRegexes === null`,
i.e. patterns not yet loaded. -/
structure AsyncClassifierState where
  archivePatternRegexes : Option (List String)
deriving DecidableEq, Repr

/-- Embedding of the async variant's `exclusions.isKnownArchive`
(src/unnamed/part_000 lines 66-78): before the patterns are loaded it
reports `false` and sends a message to the debug-log channel (second
component); afterwards it tests the loaded list. -/
def isKnownArchiveAsync (st : AsyncClassifierState) (url : String) : Bool × List String :=
  match st.archivePatternRegexes with
  | some pats => (isKnownArchiveWith pats url, [])
  | none => (false, ["RobustLinksV2: isKnownArchive called before patterns were loaded."])

/-! ## Specification-side definitions

These definitions follow the wording of the specification (not the source)
and exist solely to be compared against the embedded source functions. -/

/-- Absent-or-empty attribute, as the specification words it (an empty DOM
attribute is handed to the assembler as absent; see the
`dataVersionDate || undefined` conversions in `findAndParseRobustLinks`). -/
def absentOrEmpty (o : Option String) : Prop := o = none ∨ o = some ""

instance (o : Option String) : Decidable (absentOrEmpty o) := by
  unfold absentOrEmpty; infer_instance

/-- Assembly as §4.4 of the specification words it: default `originalUrl`
from `href`, then the three missing-input failures, the two validity
failures, the datetime failure, each step a hard precondition for the next,
and finally the fully populated record. -/
def assembleSpec (raw : RobustLinkRawAttributes) (linkText : Option String) :
    Except RLError ParsedRobustLink :=
  let originalUrl :=
    if absentOrEmpty raw.originalurl ∧ ¬(raw.href = "") then some raw.href else raw.originalurl
  if raw.href = "" then .error .MissingHref
  else if absentOrEmpty originalUrl then .error .MissingOriginalUrl
  else if absentOrEmpty raw.versiondate then .error .MissingVersionDate
  else if ¬(isValidAbsoluteUrl raw.href = true) then .error .InvalidHref
  else if ¬(isValidAbsoluteUrl (originalUrl.getD "") = true) then .error .InvalidOriginalUrl
  else
    match parseDatetime (raw.versiondate.getD "") with
    | none => .error .InvalidVersionDate
    | some d =>
      .ok { href := raw.href, originalUrl := originalUrl.getD "",
            versionDate := d, versionSnapshots := parseVersionUrl raw.versionurl,
            linkText := linkText }

/-- JavaScript whitespace characters relevant to tokenisation (space, tab,
line feed, carriage return, vertical tab, form feed), for the claim-side
"split on runs of whitespace" tokeniser. -/
def isJsWs (c : Char) : Bool :=
  c = ' ' || c = '\t' || c = '\n' || c = '\r' || c.toNat = 11 || c.toNat = 12

/-- Split a character list at every whitespace character. -/
def splitAtWs : List Char → List (List Char)
  | [] => [[]]
  | c :: rest =>
    if isJsWs c then [] :: splitAtWs rest
    else
      match splitAtWs rest with
      | t :: ts => (c :: t) :: ts
      | [] => [[c]]

/-- Claim-side tokenisation: split on runs of whitespace, discarding empty
tokens. -/
def wsTokens (s : String) : List String :=
  ((splitAtWs s.data).filter (fun cs => !cs.isEmpty)).map String.mk

/-- Render forms of the four datetime grammars (spec §4.2), used to state
what `parseDatetime` accepts. -/
def isoDateChars (y m d : Nat) : List Char :=
  pad4L y ++ '-' :: pad2L m ++ '-' :: pad2L d

def isoDatetimeChars (y m d h mi sec : Nat) : List Char :=
  pad4L y ++ '-' :: pad2L m ++ '-' :: pad2L d ++ 'T' :: pad2L h ++
    ':' :: pad2L mi ++ ':' :: pad2L sec ++ ['Z']

def waDateChars (y m d : Nat) : List Char := pad4L y ++ pad2L m ++ pad2L d

def waDatetimeChars (y m d h mi sec : Nat) : List Char :=
  pad4L y ++ pad2L m ++ pad2L d ++ pad2L h ++ pad2L mi ++ pad2L sec

/-! # Lemmas and claim theorems -/

theorem char_eq_of_toNat_eq {c d : Char} (h : c.toNat = d.toNat) : c = d :=
  Char.eq_of_val_eq (UInt32.ext h)

theorem isDigitCh_iff {c : Char} : isDigitCh c = true ↔ 48 ≤ c.toNat ∧ c.toNat ≤ 57 := by
  constructor
  · intro h
    have := (Bool.and_eq_true _ _).mp h
    exact ⟨Nat.le_of_ble_eq_true (by simpa [isDigitCh] using this.1),
      Nat.le_of_ble_eq_true (by simpa [isDigitCh] using this.2)⟩
  · intro ⟨h1, h2⟩
    simp [isDigitCh]
    omega

theorem digitChar_dv {c : Char} (h : isDigitCh c = true) : digitChar (dv c) = c := by
  obtain ⟨h1, h2⟩ := isDigitCh_iff.mp h
  apply char_eq_of_toNat_eq
  interval_cases hh : c.toNat <;> simp [digitChar, dv, hh]

theorem dv_digitChar {n : Nat} (h : n < 10) : dv (digitChar n) = n := by
  interval_cases n <;> decide

theorem isDigitCh_digitChar {n : Nat} (h : n < 10) : isDigitCh (digitChar n) = true := by
  interval_cases n <;> decide

theorem dv_lt_ten {c : Char} (h : isDigitCh c = true) : dv c < 10 := by
  obtain ⟨h1, h2⟩ := isDigitCh_iff.mp h
  simp only [dv]
  omega

theorem pad2L_recompose {a b : Char} (ha : isDigitCh a = true) (hb : isDigitCh b = true) :
    pad2L (dv a * 10 + dv b) = [a, b] := by
  have la := dv_lt_ten ha
  have lb := dv_lt_ten hb
  have e1 : (dv a * 10 + dv b) / 10 % 10 = dv a := by omega
  have e2 : (dv a * 10 + dv b) % 10 = dv b := by omega
  simp [pad2L, e1, e2, digitChar_dv, ha, hb]

theorem pad4L_recompose {a b c d : Char} (ha : isDigitCh a = true) (hb : isDigitCh b = true)
    (hc : isDigitCh c = true) (hd : isDigitCh d = true) :
    pad4L (((dv a * 10 + dv b) * 10 + dv c) * 10 + dv d) = [a, b, c, d] := by
  have la := dv_lt_ten ha
  have lb := dv_lt_ten hb
  have lc := dv_lt_ten hc
  have ld := dv_lt_ten hd
  have e1 : (((dv a * 10 + dv b) * 10 + dv c) * 10 + dv d) / 1000 % 10 = dv a := by omega
  have e2 : (((dv a * 10 + dv b) * 10 + dv c) * 10 + dv d) / 100 % 10 = dv b := by omega
  have e3 : (((dv a * 10 + dv b) * 10 + dv c) * 10 + dv d) / 10 % 10 = dv c := by omega
  have e4 : (((dv a * 10 + dv b) * 10 + dv c) * 10 + dv d) % 10 = dv d := by omega
  simp [pad4L, e1, e2, e3, e4, digitChar_dv, ha, hb, hc, hd]

theorem pad2L_digits {m : Nat} (hm : m < 100) :
    isDigitCh (digitChar (m / 10 % 10)) = true ∧ isDigitCh (digitChar (m % 10)) = true ∧
      dv (digitChar (m / 10 % 10)) * 10 + dv (digitChar (m % 10)) = m := by
  have h1 : m / 10 % 10 < 10 := Nat.mod_lt _ (by omega)
  have h2 : m % 10 < 10 := Nat.mod_lt _ (by omega)
  refine ⟨isDigitCh_digitChar h1, isDigitCh_digitChar h2, ?_⟩
  rw [dv_digitChar h1, dv_digitChar h2]
  omega

theorem pad4L_digits {y : Nat} (hy : y < 10000) :
    (∀ c ∈ pad4L y, isDigitCh c = true) ∧
      ((dv (digitChar (y / 1000 % 10)) * 10 + dv (digitChar (y / 100 % 10))) * 10 +
          dv (digitChar (y / 10 % 10))) * 10 + dv (digitChar (y % 10)) = y := by
  have h1 : y / 1000 % 10 < 10 := Nat.mod_lt _ (by omega)
  have h2 : y / 100 % 10 < 10 := Nat.mod_lt _ (by omega)
  have h3 : y / 10 % 10 < 10 := Nat.mod_lt _ (by omega)
  have h4 : y % 10 < 10 := Nat.mod_lt _ (by omega)
  constructor
  · intro c hc
    simp [pad4L] at hc
    rcases hc with h | h | h | h <;> subst h <;>
      [exact isDigitCh_digitChar h1; exact isDigitCh_digitChar h2;
       exact isDigitCh_digitChar h3; exact isDigitCh_digitChar h4]
  · rw [dv_digitChar h1, dv_digitChar h2, dv_digitChar h3, dv_digitChar h4]
    omega

theorem matchIsoDate_eq_some_iff {cs : List Char} {y m d : Nat} :
    matchIsoDate cs = some (y, m, d) ↔
      y < 10000 ∧ m < 100 ∧ d < 100 ∧ cs = isoDateChars y m d := by
  constructor
  · intro h
    rw [matchIsoDate.eq_def] at h
    split at h
    · next y1 y2 y3 y4 s1 m1 m2 s2 d1 d2 =>
      split at h
      · next hcond =>
        simp only [Bool.and_eq_true, decide_eq_true_eq] at hcond
        obtain ⟨⟨⟨⟨⟨⟨⟨⟨⟨hy1, hy2⟩, hy3⟩, hy4⟩, hs1⟩, hm1⟩, hm2⟩, hs2⟩, hd1⟩, hd2⟩ := hcond
        have hval := h
        simp only [Option.some.injEq, Prod.mk.injEq] at hval
        obtain ⟨hy, hm, hd⟩ := hval
        subst hy hm hd hs1 hs2
        have b1 := dv_lt_ten hy1
        have b2 := dv_lt_ten hy2
        have b3 := dv_lt_ten hy3
        have b4 := dv_lt_ten hy4
        have b5 := dv_lt_ten hm1
        have b6 := dv_lt_ten hm2
        have b7 := dv_lt_ten hd1
        have b8 := dv_lt_ten hd2
        refine ⟨by omega, by omega, by omega, ?_⟩
        simp [isoDateChars, pad4L_recompose hy1 hy2 hy3 hy4, pad2L_recompose hm1 hm2,
          pad2L_recompose hd1 hd2]
      · exact absurd h (by simp)
    · exact absurd h (by simp)
  · rintro ⟨hy, hm, hd, rfl⟩
    obtain ⟨pd4, pv4⟩ := pad4L_digits hy
    obtain ⟨pm1, pm2, pvm⟩ := pad2L_digits hm
    obtain ⟨pd1, pd2, pvd⟩ := pad2L_digits hd
    have h1 : y / 1000 % 10 < 10 := Nat.mod_lt _ (by omega)
    have h2 : y / 100 % 10 < 10 := Nat.mod_lt _ (by omega)
    have h3 : y / 10 % 10 < 10 := Nat.mod_lt _ (by omega)
    have h4 : y % 10 < 10 := Nat.mod_lt _ (by omega)
    simp only [isoDateChars, pad4L, pad2L, List.cons_append, List.nil_append, matchIsoDate,
      isDigitCh_digitChar, h1, h2, h3, h4, Nat.mod_lt, Bool.and_eq_true, decide_eq_true_eq]
    rw [if_pos]
    · simp only [Option.some.injEq, Prod.mk.injEq]
      exact ⟨by rw [pv4], by rw [pvm], by rw [pvd]⟩
    · simp [isDigitCh_digitChar, h1, h2, h3, h4, Nat.mod_lt _ (show 0 < 10 by omega),
        isDigitCh_digitChar (Nat.mod_lt (m / 10) (show 0 < 10 by omega))]

theorem matchWaDate_eq_some_iff {cs : List Char} {y m d : Nat} :
    matchWaDate cs = some (y, m, d) ↔
      y < 10000 ∧ m < 100 ∧ d < 100 ∧ cs = waDateChars y m d := by
  constructor
  · intro h
    rw [matchWaDate.eq_def] at h
    split at h
    · next y1 y2 y3 y4 m1 m2 d1 d2 =>
      split at h
      · next hcond =>
        simp only [Bool.and_eq_true, decide_eq_true_eq] at hcond
        obtain ⟨⟨⟨⟨⟨⟨⟨hy1, hy2⟩, hy3⟩, hy4⟩, hm1⟩, hm2⟩, hd1⟩, hd2⟩ := hcond
        have hval := h
        simp only [Option.some.injEq, Prod.mk.injEq] at hval
        obtain ⟨hy, hm, hd⟩ := hval
        subst hy hm hd
        have b1 := dv_lt_ten hy1
        have b2 := dv_lt_ten hy2
        have b3 := dv_lt_ten hy3
        have b4 := dv_lt_ten hy4
        have b5 := dv_lt_ten hm1
        have b6 := dv_lt_ten hm2
        have b7 := dv_lt_ten hd1
        have b8 := dv_lt_ten hd2
        refine ⟨by omega, by omega, by omega, ?_⟩
        simp [waDateChars, pad4L_recompose hy1 hy2 hy3 hy4, pad2L_recompose hm1 hm2,
          pad2L_recompose hd1 hd2]
      · exact absurd h (by simp)
    · exact absurd h (by simp)
  · rintro ⟨hy, hm, hd, rfl⟩
    obtain ⟨pd4, pv4⟩ := pad4L_digits hy
    obtain ⟨pm1, pm2, pvm⟩ := pad2L_digits hm
    obtain ⟨pd1, pd2, pvd⟩ := pad2L_digits hd
    have h1 : y / 1000 % 10 < 10 := Nat.mod_lt _ (by omega)
    have h2 : y / 100 % 10 < 10 := Nat.mod_lt _ (by omega)
    have h3 : y / 10 % 10 < 10 := Nat.mod_lt _ (by omega)
    have h4 : y % 10 < 10 := Nat.mod_lt _ (by omega)
    have h5 : ∀ k : Nat, k % 10 < 10 := fun k => Nat.mod_lt _ (by omega)
    simp only [waDateChars, pad4L, pad2L, List.cons_append, List.nil_append, matchWaDate]
    rw [if_pos]
    · simp only [Option.some.injEq, Prod.mk.injEq]
      exact ⟨by rw [pv4], by rw [pvm], by rw [pvd]⟩
    · simp [isDigitCh_digitChar, h1, h2, h3, h4, h5]

theorem matchIsoDatetime_eq_some_iff {cs : List Char} {y m d h mi sec : Nat} :
    matchIsoDatetime cs = some (y, m, d, h, mi, sec) ↔
      y < 10000 ∧ m < 100 ∧ d < 100 ∧ h < 100 ∧ mi < 100 ∧ sec < 100 ∧
        cs = isoDatetimeChars y m d h mi sec := by
  constructor
  · intro hq
    rw [matchIsoDatetime.eq_def] at hq
    split at hq
    · next y1 y2 y3 y4 s1 m1 m2 s2 d1 d2 t h1 h2 c1 i1 i2 c2 e1 e2 z =>
      split at hq
      · next hcond =>
        simp only [Bool.and_eq_true, decide_eq_true_eq] at hcond
        obtain ⟨⟨⟨⟨⟨⟨⟨⟨⟨⟨⟨⟨⟨⟨⟨⟨⟨⟨⟨hy1, hy2⟩, hy3⟩, hy4⟩, hs1⟩, hm1⟩, hm2⟩, hs2⟩, hd1⟩,
          hd2⟩, ht⟩, hh1⟩, hh2⟩, hc1⟩, hi1⟩, hi2⟩, hc2⟩, he1⟩, he2⟩, hz⟩ := hcond
        have hval := hq
        simp only [Option.some.injEq, Prod.mk.injEq] at hval
        obtain ⟨hy, hm, hd, hh, hmi, hsec⟩ := hval
        subst hy hm hd hh hmi hsec hs1 hs2 ht hc1 hc2 hz
        have b1 := dv_lt_ten hy1
        have b2 := dv_lt_ten hy2
        have b3 := dv_lt_ten hy3
        have b4 := dv_lt_ten hy4
        have b5 := dv_lt_ten hm1
        have b6 := dv_lt_ten hm2
        have b7 := dv_lt_ten hd1
        have b8 := dv_lt_ten hd2
        have b9 := dv_lt_ten hh1
        have b10 := dv_lt_ten hh2
        have b11 := dv_lt_ten hi1
        have b12 := dv_lt_ten hi2
        have b13 := dv_lt_ten he1
        have b14 := dv_lt_ten he2
        refine ⟨by omega, by omega, by omega, by omega, by omega, by omega, ?_⟩
        simp [isoDatetimeChars, pad4L_recompose hy1 hy2 hy3 hy4, pad2L_recompose hm1 hm2,
          pad2L_recompose hd1 hd2, pad2L_recompose hh1 hh2, pad2L_recompose hi1 hi2,
          pad2L_recompose he1 he2]
      · exact absurd hq (by simp)
    · exact absurd hq (by simp)
  · rintro ⟨hy, hm, hd, hh, hmi, hsec, rfl⟩
    obtain ⟨pd4, pv4⟩ := pad4L_digits hy
    obtain ⟨pm1, pm2, pvm⟩ := pad2L_digits hm
    obtain ⟨pd1, pd2, pvd⟩ := pad2L_digits hd
    obtain ⟨ph1, ph2, pvh⟩ := pad2L_digits hh
    obtain ⟨pi1, pi2, pvi⟩ := pad2L_digits hmi
    obtain ⟨pe1, pe2, pve⟩ := pad2L_digits hsec
    have h1 : y / 1000 % 10 < 10 := Nat.mod_lt _ (by omega)
    have h2 : y / 100 % 10 < 10 := Nat.mod_lt _ (by omega)
    have h5 : ∀ k : Nat, k % 10 < 10 := fun k => Nat.mod_lt _ (by omega)
    simp only [isoDatetimeChars, pad4L, pad2L, List.cons_append, List.nil_append, List.append_assoc,
      matchIsoDatetime]
    rw [if_pos]
    · simp only [Option.some.injEq, Prod.mk.injEq]
      exact ⟨by rw [pv4], by rw [pvm], by rw [pvd], by rw [pvh], by rw [pvi], by rw [pve]⟩
    · simp [isDigitCh_digitChar, h1, h2, h5]

theorem matchWaDatetime_eq_some_iff {cs : List Char} {y m d h mi sec : Nat} :
    matchWaDatetime cs = some (y, m, d, h, mi, sec) ↔
      y < 10000 ∧ m < 100 ∧ d < 100 ∧ h < 100 ∧ mi < 100 ∧ sec < 100 ∧
        cs = waDatetimeChars y m d h mi sec := by
  constructor
  · intro hq
    rw [matchWaDatetime.eq_def] at hq
    split at hq
    · next y1 y2 y3 y4 m1 m2 d1 d2 h1 h2 i1 i2 e1 e2 =>
      split at hq
      · next hcond =>
        simp only [Bool.and_eq_true, decide_eq_true_eq] at hcond
        obtain ⟨⟨⟨⟨⟨⟨⟨⟨⟨⟨⟨⟨⟨hy1, hy2⟩, hy3⟩, hy4⟩, hm1⟩, hm2⟩, hd1⟩, hd2⟩, hh1⟩, hh2⟩,
          hi1⟩, hi2⟩, he1⟩, he2⟩ := hcond
        have hval := hq
        simp only [Option.some.injEq, Prod.mk.injEq] at hval
        obtain ⟨hy, hm, hd, hh, hmi, hsec⟩ := hval
        subst hy hm hd hh hmi hsec
        have b1 := dv_lt_ten hy1
        have b2 := dv_lt_ten hy2
        have b3 := dv_lt_ten hy3
        have b4 := dv_lt_ten hy4
        have b5 := dv_lt_ten hm1
        have b6 := dv_lt_ten hm2
        have b7 := dv_lt_ten hd1
        have b8 := dv_lt_ten hd2
        have b9 := dv_lt_ten hh1
        have b10 := dv_lt_ten hh2
        have b11 := dv_lt_ten hi1
        have b12 := dv_lt_ten hi2
        have b13 := dv_lt_ten he1
        have b14 := dv_lt_ten he2
        refine ⟨by omega, by omega, by omega, by omega, by omega, by omega, ?_⟩
        simp [waDatetimeChars, pad4L_recompose hy1 hy2 hy3 hy4, pad2L_recompose hm1 hm2,
          pad2L_recompose hd1 hd2, pad2L_recompose hh1 hh2, pad2L_recompose hi1 hi2,
          pad2L_recompose he1 he2]
      · exact absurd hq (by simp)
    · exact absurd hq (by simp)
  · rintro ⟨hy, hm, hd, hh, hmi, hsec, rfl⟩
    obtain ⟨pd4, pv4⟩ := pad4L_digits hy
    obtain ⟨pm1, pm2, pvm⟩ := pad2L_digits hm
    obtain ⟨pd1, pd2, pvd⟩ := pad2L_digits hd
    obtain ⟨ph1, ph2, pvh⟩ := pad2L_digits hh
    obtain ⟨pi1, pi2, pvi⟩ := pad2L_digits hmi
    obtain ⟨pe1, pe2, pve⟩ := pad2L_digits hsec
    have h1 : y / 1000 % 10 < 10 := Nat.mod_lt _ (by omega)
    have h2 : y / 100 % 10 < 10 := Nat.mod_lt _ (by omega)
    have h5 : ∀ k : Nat, k % 10 < 10 := fun k => Nat.mod_lt _ (by omega)
    simp only [waDatetimeChars, pad4L, pad2L, List.cons_append, List.nil_append,
      List.append_assoc, matchWaDatetime]
    rw [if_pos]
    · simp only [Option.some.injEq, Prod.mk.injEq]
      exact ⟨by rw [pv4], by rw [pvm], by rw [pvd], by rw [pvh], by rw [pvi], by rw [pve]⟩
    · simp [isDigitCh_digitChar, h1, h2, h5]

theorem isoDateChars_length (y m d : Nat) : (isoDateChars y m d).length = 10 := by
  simp [isoDateChars, pad4L, pad2L]

theorem isoDatetimeChars_length (y m d h mi sec : Nat) :
    (isoDatetimeChars y m d h mi sec).length = 20 := by
  simp [isoDatetimeChars, pad4L, pad2L]

theorem waDateChars_length (y m d : Nat) : (waDateChars y m d).length = 8 := by
  simp [waDateChars, pad4L, pad2L]

theorem waDatetimeChars_length (y m d h mi sec : Nat) :
    (waDatetimeChars y m d h mi sec).length = 14 := by
  simp [waDatetimeChars, pad4L, pad2L]

theorem matchIsoDate_none_of_length {cs : List Char} (h : cs.length ≠ 10) :
    matchIsoDate cs = none := by
  cases hm : matchIsoDate cs with
  | none => rfl
  | some v =>
    obtain ⟨y, m, d⟩ := v
    obtain ⟨-, -, -, rfl⟩ := matchIsoDate_eq_some_iff.mp hm
    exact absurd (isoDateChars_length y m d) h

theorem matchIsoDatetime_none_of_length {cs : List Char} (h : cs.length ≠ 20) :
    matchIsoDatetime cs = none := by
  cases hm : matchIsoDatetime cs with
  | none => rfl
  | some v =>
    obtain ⟨y, m, d, hh, mi, sec⟩ := v
    obtain ⟨-, -, -, -, -, -, rfl⟩ := matchIsoDatetime_eq_some_iff.mp hm
    exact absurd (isoDatetimeChars_length y m d hh mi sec) h

theorem matchWaDate_none_of_length {cs : List Char} (h : cs.length ≠ 8) :
    matchWaDate cs = none := by
  cases hm : matchWaDate cs with
  | none => rfl
  | some v =>
    obtain ⟨y, m, d⟩ := v
    obtain ⟨-, -, -, rfl⟩ := matchWaDate_eq_some_iff.mp hm
    exact absurd (waDateChars_length y m d) h

theorem matchWaDatetime_none_of_length {cs : List Char} (h : cs.length ≠ 14) :
    matchWaDatetime cs = none := by
  cases hm : matchWaDatetime cs with
  | none => rfl
  | some v =>
    obtain ⟨y, m, d, hh, mi, sec⟩ := v
    obtain ⟨-, -, -, -, -, -, rfl⟩ := matchWaDatetime_eq_some_iff.mp hm
    exact absurd (waDatetimeChars_length y m d hh mi sec) h

theorem parseDatetime_isoDate {s : String} {y m d : Nat} (hy : y < 10000) (hm : m < 100)
    (hd : d < 100) (hs : s.data = isoDateChars y m d) :
    parseDatetime s = some (dateUTC y ((m : Int) - 1) d 12 0 0) := by
  have h1 : matchIsoDate s.data = some (y, m, d) :=
    matchIsoDate_eq_some_iff.mpr ⟨hy, hm, hd, hs⟩
  simp [parseDatetime, h1]

theorem parseDatetime_isoDatetime {s : String} {y m d h mi sec : Nat} (hy : y < 10000)
    (hm : m < 100) (hd : d < 100) (hh : h < 100) (hmi : mi < 100) (hsec : sec < 100)
    (hs : s.data = isoDatetimeChars y m d h mi sec) :
    parseDatetime s = some (dateUTC y ((m : Int) - 1) d h mi sec) := by
  have h1 : matchIsoDate s.data = none :=
    matchIsoDate_none_of_length (by rw [hs, isoDatetimeChars_length]; omega)
  have h2 : matchIsoDatetime s.data = some (y, m, d, h, mi, sec) :=
    matchIsoDatetime_eq_some_iff.mpr ⟨hy, hm, hd, hh, hmi, hsec, hs⟩
  simp [parseDatetime, h1, h2]

theorem parseDatetime_waDate {s : String} {y m d : Nat} (hy : y < 10000) (hm : m < 100)
    (hd : d < 100) (hs : s.data = waDateChars y m d) :
    parseDatetime s = some (dateUTC y ((m : Int) - 1) d 12 0 0) := by
  have h1 : matchIsoDate s.data = none :=
    matchIsoDate_none_of_length (by rw [hs, waDateChars_length]; omega)
  have h2 : matchIsoDatetime s.data = none :=
    matchIsoDatetime_none_of_length (by rw [hs, waDateChars_length]; omega)
  have h3 : matchWaDate s.data = some (y, m, d) :=
    matchWaDate_eq_some_iff.mpr ⟨hy, hm, hd, hs⟩
  simp [parseDatetime, h1, h2, h3]

theorem parseDatetime_waDatetime {s : String} {y m d h mi sec : Nat} (hy : y < 10000)
    (hm : m < 100) (hd : d < 100) (hh : h < 100) (hmi : mi < 100) (hsec : sec < 100)
    (hs : s.data = waDatetimeChars y m d h mi sec) :
    parseDatetime s = some (dateUTC y ((m : Int) - 1) d h mi sec) := by
  have h1 : matchIsoDate s.data = none :=
    matchIsoDate_none_of_length (by rw [hs, waDatetimeChars_length]; omega)
  have h2 : matchIsoDatetime s.data = none :=
    matchIsoDatetime_none_of_length (by rw [hs, waDatetimeChars_length]; omega)
  have h3 : matchWaDate s.data = none :=
    matchWaDate_none_of_length (by rw [hs, waDatetimeChars_length]; omega)
  have h4 : matchWaDatetime s.data = some (y, m, d, h, mi, sec) :=
    matchWaDatetime_eq_some_iff.mpr ⟨hy, hm, hd, hh, hmi, hsec, hs⟩
  simp [parseDatetime, h1, h2, h3, h4]

theorem parseDatetime_none {s : String}
    (h1 : ¬ ∃ y m d : Nat, y < 10000 ∧ m < 100 ∧ d < 100 ∧
      (s.data = isoDateChars y m d ∨ s.data = waDateChars y m d))
    (h2 : ¬ ∃ y m d h mi sec : Nat, y < 10000 ∧ m < 100 ∧ d < 100 ∧ h < 100 ∧ mi < 100 ∧
      sec < 100 ∧ (s.data = isoDatetimeChars y m d h mi sec ∨
        s.data = waDatetimeChars y m d h mi sec)) :
    parseDatetime s = none := by
  have e1 : matchIsoDate s.data = none := by
    cases hm : matchIsoDate s.data with
    | none => rfl
    | some v =>
      obtain ⟨y, m, d⟩ := v
      obtain ⟨hy, hmm, hd, hs⟩ := matchIsoDate_eq_some_iff.mp hm
      exact absurd ⟨y, m, d, hy, hmm, hd, Or.inl hs⟩ h1
  have e2 : matchIsoDatetime s.data = none := by
    cases hm : matchIsoDatetime s.data with
    | none => rfl
    | some v =>
      obtain ⟨y, m, d, h, mi, sec⟩ := v
      obtain ⟨hy, hmm, hd, hh, hmi, hsec, hs⟩ := matchIsoDatetime_eq_some_iff.mp hm
      exact absurd ⟨y, m, d, h, mi, sec, hy, hmm, hd, hh, hmi, hsec, Or.inl hs⟩ h2
  have e3 : matchWaDate s.data = none := by
    cases hm : matchWaDate s.data with
    | none => rfl
    | some v =>
      obtain ⟨y, m, d⟩ := v
      obtain ⟨hy, hmm, hd, hs⟩ := matchWaDate_eq_some_iff.mp hm
      exact absurd ⟨y, m, d, hy, hmm, hd, Or.inr hs⟩ h1
  have e4 : matchWaDatetime s.data = none := by
    cases hm : matchWaDatetime s.data with
    | none => rfl
    | some v =>
      obtain ⟨y, m, d, h, mi, sec⟩ := v
      obtain ⟨hy, hmm, hd, hh, hmi, hsec, hs⟩ := matchWaDatetime_eq_some_iff.mp hm
      exact absurd ⟨y, m, d, h, mi, sec, hy, hmm, hd, hh, hmi, hsec, Or.inr hs⟩ h2
  simp [parseDatetime, e1, e2, e3, e4]

theorem nextDayIter_within {y m : Int} : ∀ (k : Nat) (j : Int), 1 ≤ j →
    j + k ≤ daysInMonth y m → nextDayIter (y, m, j) k = (y, m, j + k)
  | 0, j, _, _ => by simp [nextDayIter]
  | k + 1, j, h1, h2 => by
    have hlt : j < daysInMonth y m := by
      have : (k : Int) + 1 ≥ 1 := by omega
      omega
    have : nextDay (y, m, j) = (y, m, j + 1) := by simp [nextDay, hlt]
    rw [nextDayIter, this, nextDayIter_within k (j + 1) (by omega) (by omega)]
    congr 2
    omega

theorem dateUTC_valid {y m d : Nat} (hy : 100 ≤ y) (hy2 : y ≤ 9999) (hm1 : 1 ≤ m)
    (hm2 : m ≤ 12) (hd1 : 1 ≤ d) (hd2 : (d : Int) ≤ daysInMonth y m)
    (h mi sec : Nat) (hh : h ≤ 23) (hmi : mi ≤ 59) (hsec : sec ≤ 59) :
    dateUTC y ((m : Int) - 1) d h mi sec =
      ⟨(y : Int), (m : Int), (d : Int), (h : Int), (mi : Int), (sec : Int)⟩ := by
  unfold dateUTC
  have hyy : ¬(0 ≤ (y : Int) ∧ (y : Int) ≤ 99) := by omega
  have hfd : Int.fdiv ((m : Int) - 1) 12 = 0 := by
    interval_cases m <;> decide
  have hfm : Int.emod ((m : Int) - 1) 12 = (m : Int) - 1 := by
    interval_cases m <;> decide
  have htsec : (0 : Int) ≤ (h : Int) * 3600 + (mi : Int) * 60 + (sec : Int) := by positivity
  have htsec2 : (h : Int) * 3600 + (mi : Int) * 60 + (sec : Int) < 86400 := by omega
  have hfd2 : Int.fdiv ((h : Int) * 3600 + (mi : Int) * 60 + (sec : Int)) 86400 = 0 := by
    rw [Int.fdiv_eq_ediv _ (by omega)]
    exact Int.ediv_eq_zero_of_lt htsec htsec2
  have hfm2 : Int.emod ((h : Int) * 3600 + (mi : Int) * 60 + (sec : Int)) 86400 =
      (h : Int) * 3600 + (mi : Int) * 60 + (sec : Int) := Int.emod_eq_of_lt htsec htsec2
  simp only [hyy, if_false, hfd, hfm, hfd2, hfm2]
  have hoff : ¬((d : Int) - 1 + 0 < 0) := by omega
  have haddd : addDaysCivil ((y : Int) + 0, (m : Int) - 1 + 1, 1) ((d : Int) - 1 + 0) =
      ((y : Int), (m : Int), (d : Int)) := by
    unfold addDaysCivil
    rw [if_neg hoff]
    have hm' : (m : Int) - 1 + 1 = (m : Int) := by omega
    have htn : ((d : Int) - 1 + 0).toNat = d - 1 := by omega
    rw [hm', htn]
    have hy0 : (y : Int) + 0 = (y : Int) := by omega
    rw [hy0]
    rw [nextDayIter_within (d - 1) 1 (by omega) (by omega)]
    simp only [Prod.mk.injEq]
    refine ⟨trivial, trivial, ?_⟩
    omega
  rw [haddd]
  simp only [JsDate.mk.injEq]
  refine ⟨trivial, trivial, trivial, ?_, ?_, ?_⟩ <;> omega

theorem isoDateChars_sep (y m d : Nat) : (isoDateChars y m d)[4]? = some '-' := by
  simp [isoDateChars, pad4L, pad2L]

theorem daysInMonth_le_31 (y m : Int) : daysInMonth y m ≤ 31 := by
  unfold daysInMonth
  split
  · omega
  · split
    · split <;> omega
    · omega

/-- C1: `parseDatetime` accepts exactly the four anchored grammars
(`YYYY-MM-DD`, `YYYY-MM-DDThh:mm:ssZ`, `YYYYMMDD`, `YYYYMMDDhhmmss`, tried in
that fixed order), maps the two date-only forms to 12:00:00 UTC of the
denoted day and the two full forms to that exact UTC instant (with
calendar-valid fields the civil fields are preserved verbatim), returns
`null` on every string matching none of the four patterns, and — being a
total function — never throws. -/
theorem parseDatetime_c1 (s : String) :
    (∀ y m d : Nat, y < 10000 → m < 100 → d < 100 → s.data = isoDateChars y m d →
        parseDatetime s = some (dateUTC y ((m : Int) - 1) d 12 0 0))
  ∧ (∀ y m d h mi sec : Nat, y < 10000 → m < 100 → d < 100 → h < 100 → mi < 100 → sec < 100 →
        s.data = isoDatetimeChars y m d h mi sec →
        parseDatetime s = some (dateUTC y ((m : Int) - 1) d h mi sec))
  ∧ (∀ y m d : Nat, y < 10000 → m < 100 → d < 100 → s.data = waDateChars y m d →
        parseDatetime s = some (dateUTC y ((m : Int) - 1) d 12 0 0))
  ∧ (∀ y m d h mi sec : Nat, y < 10000 → m < 100 → d < 100 → h < 100 → mi < 100 → sec < 100 →
        s.data = waDatetimeChars y m d h mi sec →
        parseDatetime s = some (dateUTC y ((m : Int) - 1) d h mi sec))
  ∧ ((¬ ∃ y m d : Nat, y < 10000 ∧ m < 100 ∧ d < 100 ∧
        (s.data = isoDateChars y m d ∨ s.data = waDateChars y m d)) →
     (¬ ∃ y m d h mi sec : Nat, y < 10000 ∧ m < 100 ∧ d < 100 ∧ h < 100 ∧ mi < 100 ∧
        sec < 100 ∧ (s.data = isoDatetimeChars y m d h mi sec ∨
          s.data = waDatetimeChars y m d h mi sec)) →
     parseDatetime s = none)
  ∧ (∀ y m d : Nat, 100 ≤ y → y ≤ 9999 → 1 ≤ m → m ≤ 12 → 1 ≤ d →
        (d : Int) ≤ daysInMonth y m →
        (s.data = isoDateChars y m d ∨ s.data = waDateChars y m d) →
        parseDatetime s = some ⟨y, m, d, 12, 0, 0⟩)
  ∧ (∀ y m d h mi sec : Nat, 100 ≤ y → y ≤ 9999 → 1 ≤ m → m ≤ 12 → 1 ≤ d →
        (d : Int) ≤ daysInMonth y m → h ≤ 23 → mi ≤ 59 → sec ≤ 59 →
        (s.data = isoDatetimeChars y m d h mi sec ∨ s.data = waDatetimeChars y m d h mi sec) →
        parseDatetime s = some ⟨y, m, d, h, mi, sec⟩) := by
  refine ⟨?_, ?_, ?_, ?_, ?_, ?_, ?_⟩
  · intro y m d hy hm hd hs
    exact parseDatetime_isoDate hy hm hd hs
  · intro y m d h mi sec hy hm hd hh hmi hsec hs
    exact parseDatetime_isoDatetime hy hm hd hh hmi hsec hs
  · intro y m d hy hm hd hs
    exact parseDatetime_waDate hy hm hd hs
  · intro y m d h mi sec hy hm hd hh hmi hsec hs
    exact parseDatetime_waDatetime hy hm hd hh hmi hsec hs
  · exact parseDatetime_none
  · intro y m d hy1 hy2 hm1 hm2 hd1 hd2 hs
    have hdim := daysInMonth_le_31 (y : Int) (m : Int)
    have hv := dateUTC_valid hy1 hy2 hm1 hm2 hd1 hd2 12 0 0 (by omega) (by omega) (by omega)
    push_cast at hv
    rcases hs with hs | hs
    · rw [parseDatetime_isoDate (by omega) (by omega) (by omega) hs, hv]
    · rw [parseDatetime_waDate (by omega) (by omega) (by omega) hs, hv]
  · intro y m d h mi sec hy1 hy2 hm1 hm2 hd1 hd2 hh hmi hsec hs
    have hdim := daysInMonth_le_31 (y : Int) (m : Int)
    have hv := dateUTC_valid hy1 hy2 hm1 hm2 hd1 hd2 h mi sec hh hmi hsec
    push_cast at hv
    rcases hs with hs | hs
    · rw [parseDatetime_isoDatetime (by omega) (by omega) (by omega) (by omega) (by omega)
        (by omega) hs, hv]
    · rw [parseDatetime_waDatetime (by omega) (by omega) (by omega) (by omega) (by omega)
        (by omega) hs, hv]

/-- Witness for C1 at concrete inputs: the spec's own scenarios
`parseDatetime("2023-01-15")`, `parseDatetime("20221123100530")` and the
rejected `parseDatetime("2023/01/15")`. -/
theorem parseDatetime_c1_witness :
    parseDatetime "2023-01-15" = some ⟨2023, 1, 15, 12, 0, 0⟩
  ∧ parseDatetime "20221123100530" = some ⟨2022, 11, 23, 10, 5, 30⟩
  ∧ parseDatetime "2023/01/15" = none := by
  refine ⟨?_, ?_, ?_⟩
  · exact (parseDatetime_c1 "2023-01-15").2.2.2.2.2.1 2023 1 15 (by omega) (by omega)
      (by omega) (by omega) (by omega) (by decide) (Or.inl (by decide))
  · exact (parseDatetime_c1 "20221123100530").2.2.2.2.2.2 2022 11 23 10 5 30 (by omega)
      (by omega) (by omega) (by omega) (by omega) (by decide) (by omega) (by omega) (by omega)
      (Or.inr (by decide))
  · refine (parseDatetime_c1 "2023/01/15").2.2.2.2.1 ?_ ?_
    · rintro ⟨y, m, d, -, -, -, hs | hs⟩
      · have h4 : ("2023/01/15".data)[4]? = (isoDateChars y m d)[4]? := by rw [hs]
        rw [isoDateChars_sep] at h4
        exact absurd h4 (by decide)
      · have hl := congrArg List.length hs
        rw [waDateChars_length] at hl
        exact absurd hl (by decide)
    · rintro ⟨y, m, d, h, mi, sec, -, -, -, -, -, -, hs | hs⟩
      · have hl := congrArg List.length hs
        rw [isoDatetimeChars_length] at hl
        exact absurd hl (by decide)
      · have hl := congrArg List.length hs
        rw [waDatetimeChars_length] at hl
        exact absurd hl (by decide)

/-- Counterexample for C4 as stated: `parseDatetime` accepts `YYYY-MM-DD`
strings with out-of-range calendar fields, and `Date.UTC` normalizes them, so
the write-back differs from the input ("2023-13-01" re-renders as
"2024-01-01"); it also maps two-digit years to 1900-based years
("0099-01-15" re-renders as "1999-01-15"). -/
theorem c4_counterexample :
    ((parseDatetime "2023-13-01").map writeBackVersionDate = some "2024-01-01"
      ∧ ("2024-01-01" : String) ≠ "2023-13-01")
  ∧ ((parseDatetime "0099-01-15").map writeBackVersionDate = some "1999-01-15"
      ∧ ("1999-01-15" : String) ≠ "0099-01-15") := by
  constructor
  · exact ⟨by decide, by decide⟩
  · exact ⟨by decide, by decide⟩

/-- C4 amended: for a `YYYY-MM-DD` string whose fields form a calendar-valid
date with year `100..9999` (so that neither the two-digit-year rule nor field
normalization applies), parsing and re-rendering through the write-back rule
of `createRobustLinkHtml` reproduces exactly the original string. -/
theorem c4_amended (s : String) (y m d : Nat)
    (hm : matchIsoDate s.data = some (y, m, d)) (hy : 100 ≤ y)
    (hm1 : 1 ≤ m) (hm2 : m ≤ 12) (hd1 : 1 ≤ d) (hd2 : (d : Int) ≤ daysInMonth y m) :
    (parseDatetime s).map writeBackVersionDate = some s := by
  obtain ⟨hy4, hm100, hd100, hs⟩ := matchIsoDate_eq_some_iff.mp hm
  have hp := parseDatetime_isoDate hy4 hm100 hd100 hs
  have hv := dateUTC_valid hy (by omega) hm1 hm2 hd1 hd2 12 0 0 (by omega) (by omega) (by omega)
  push_cast at hv
  rw [hp, hv]
  simp only [Option.map_some']
  congr 1
  have hchars : isoDatePartChars ⟨(y : Int), (m : Int), (d : Int), 12, 0, 0⟩ =
      isoDateChars y m d := by
    unfold isoDatePartChars isoDateChars
    have h1 : ¬((y : Int) < 0) := by omega
    have h2 : (y : Int) ≤ 9999 := by omega
    simp only [h1, if_false, h2, if_true]
    simp [Int.toNat_ofNat]
  unfold writeBackVersionDate isoDatePart
  rw [hchars, ← hs]

/-- Witness for C4 (amended) at the concrete date string "2023-01-15". -/
theorem c4_amended_witness :
    (parseDatetime "2023-01-15").map writeBackVersionDate = some "2023-01-15" :=
  c4_amended "2023-01-15" 2023 1 15 (by decide) (by omega) (by omega) (by omega)
    (by omega) (by decide)

theorem falsyOpt_eq_true_iff {o : Option String} : falsyOpt o = true ↔ absentOrEmpty o := by
  cases o with
  | none => simp [falsyOpt, absentOrEmpty]
  | some s => simp [falsyOpt, absentOrEmpty]

theorem parseRobustLink_eq_assembleSpec (raw : RobustLinkRawAttributes)
    (txt : Option String) : parseRobustLink raw txt = assembleSpec raw txt := by
  have hbridge : ∀ o : Option String, (falsyOpt o = true) = absentOrEmpty o :=
    fun o => propext falsyOpt_eq_true_iff
  unfold parseRobustLink assembleSpec
  simp only [hbridge, Bool.and_eq_true, Bool.not_eq_true', decide_eq_false_iff_not,
    Bool.not_eq_true]

/-- C10: the `MissingOriginalUrl` branch of `parseRobustLink` is dead code:
when `originalUrl` is absent or empty it is either defaulted from a non-empty
`href` before the check, or the empty `href` raises `MissingHref` first, so no
input reaches the `data-originalurl is missing` error. -/
theorem parseRobustLink_c10 (raw : RobustLinkRawAttributes) (txt : Option String) :
    parseRobustLink raw txt ≠ Except.error RLError.MissingOriginalUrl := by
  rw [parseRobustLink_eq_assembleSpec]
  unfold assembleSpec
  by_cases h1 : raw.href = ""
  · simp [h1]
  · have hno : ¬ absentOrEmpty
        (if absentOrEmpty raw.originalurl ∧ ¬raw.href = "" then some raw.href
         else raw.originalurl) := by
      split
      · simp [absentOrEmpty, h1]
      · next hneg =>
        push_neg at hneg
        exact fun ha => h1 (hneg ha)
    simp only [if_neg h1, if_neg hno]
    split_ifs <;> try (simp; done)
    all_goals
      intro hcontra
      split at hcontra <;> simp_all

/-- C2: `parseRobustLink` performs assembly in the spec's fixed order — the
`originalUrl := href` default first, then `MissingHref`, `MissingOriginalUrl`,
`MissingVersionDate` (with no synthesized fallback), `InvalidHref`,
`InvalidOriginalUrl`, `InvalidVersionDate`, each a hard precondition for the
next, and on success a fully populated record; stated as equality with the
step-by-step spec-side assembler plus concrete order-sensitive probes. -/
theorem parseRobustLink_c2 :
    (∀ raw txt, parseRobustLink raw txt = assembleSpec raw txt)
  ∧ parseRobustLink ⟨"not a url", none, none, none⟩ none =
      Except.error RLError.MissingVersionDate
  ∧ parseRobustLink ⟨"not a url", some "also bad", some "2023-01-15", none⟩ none =
      Except.error RLError.InvalidHref
  ∧ parseRobustLink ⟨"http://x.com", some "bad", some "bad-date", none⟩ none =
      Except.error RLError.InvalidOriginalUrl
  ∧ parseRobustLink ⟨"http://x.com", some "http://y.com", some "bad-date", none⟩ none =
      Except.error RLError.InvalidVersionDate
  ∧ parseRobustLink ⟨"", some "http://y.com", some "2023-01-15", none⟩ none =
      Except.error RLError.MissingHref
  ∧ parseRobustLink ⟨"http://x.com", none, some "2023-01-15",
        some "http://a.com 20230101"⟩ (some "t") =
      Except.ok ⟨"http://x.com", "http://x.com", ⟨2023, 1, 15, 12, 0, 0⟩,
        [⟨"http://a.com", some "20230101"⟩], some "t"⟩ :=
  ⟨parseRobustLink_eq_assembleSpec, rfl, rfl, rfl, rfl, rfl, rfl⟩

/-- C6: `isValidAbsoluteUrl` is total (a Lean function, hence never throws,
on every string including empty, whitespace and malformed percent-encoding)
and returns `true` exactly when the WHATWG parse succeeds with scheme
`http`/`https` and a non-empty host; relative URIs, `mailto:`, `ftp:`,
`javascript:` and scheme-relative strings are all rejected. -/
theorem isValidAbsoluteUrl_c6 :
    (∀ s, isValidAbsoluteUrl s = true ↔
      ∃ u, jsURL s = some u ∧ (u.protocol = "http:" ∨ u.protocol = "https:") ∧
        0 < u.hostname.length)
  ∧ isValidAbsoluteUrl "" = false
  ∧ isValidAbsoluteUrl " " = false
  ∧ isValidAbsoluteUrl "\t\n " = false
  ∧ isValidAbsoluteUrl "http://a%zzb.com/" = false
  ∧ isValidAbsoluteUrl "/relative/path" = false
  ∧ isValidAbsoluteUrl "mailto:user@example.com" = false
  ∧ isValidAbsoluteUrl "ftp://example.com/file" = false
  ∧ isValidAbsoluteUrl "javascript:alert(1)" = false
  ∧ isValidAbsoluteUrl "//example.com/path" = false
  ∧ isValidAbsoluteUrl "http://" = false
  ∧ isValidAbsoluteUrl "http://example.com/a?b#c" = true
  ∧ isValidAbsoluteUrl "HTTPS://Example.COM/x" = true := by
  refine ⟨?_, by decide, by decide, by decide, by decide, by decide, by decide, by decide,
    by decide, by decide, by decide, by decide, by decide⟩
  intro s
  cases h : jsURL s with
  | none => simp [isValidAbsoluteUrl, h]
  | some u =>
    simp [isValidAbsoluteUrl, h, Bool.or_eq_true, Bool.and_eq_true, decide_eq_true_eq]

theorem scanSnapshots_sublist : ∀ parts : List String,
    List.Sublist (((scanSnapshots parts).1.map (fun s => s.uri))) parts
  | [] => by simp [scanSnapshots]
  | u :: rest => by
    by_cases hv : isValidAbsoluteUrl u = true
    · match rest with
      | [] => simp [scanSnapshots, hv]
      | d :: rest2 =>
        by_cases hd : (parseDatetime d).isSome
        · have ih := scanSnapshots_sublist rest2
          simp only [scanSnapshots, hv, Bool.not_true, Bool.false_eq_true, if_false, hd,
            if_true, List.map_cons]
          exact (ih.cons d).cons₂ u
        · have ih := scanSnapshots_sublist (d :: rest2)
          simp only [scanSnapshots, hv, Bool.not_true, Bool.false_eq_true, if_false, hd,
            if_false, List.map_cons]
          exact ih.cons₂ u
    · simp only [Bool.not_eq_true] at hv
      match rest with
      | [] => simp [scanSnapshots, hv]
      | d :: rest2 =>
        have ih := scanSnapshots_sublist (d :: rest2)
        simp only [scanSnapshots, hv, Bool.not_false, if_true, List.map_cons]
        exact ih.cons u
termination_by parts => parts.length

/-- C3: the snapshot scan of `parseVersionUrl` proceeds left to right — an
invalid token is skipped with a diagnostic and scanning resumes at the next
token; a valid URI whose immediate successor parses as a datetime consumes
both as one snapshot carrying the successor's raw text; otherwise the URI
alone becomes a snapshot; the call is total (never fails), and the output
follows input order (the emitted URIs form a sublist of the tokens). -/
theorem parseVersionUrl_c3 :
    (∀ s, s ≠ "" → parseVersionUrl (some s) = (scanSnapshots (spaceTokens s)).1)
  ∧ (∀ u rest, isValidAbsoluteUrl u = false →
      scanSnapshots (u :: rest) =
        ((scanSnapshots rest).1, skipWarning u :: (scanSnapshots rest).2))
  ∧ (∀ u d rest, isValidAbsoluteUrl u = true → (parseDatetime d).isSome = true →
      scanSnapshots (u :: d :: rest) =
        (⟨u, some d⟩ :: (scanSnapshots rest).1, (scanSnapshots rest).2))
  ∧ (∀ u d rest, isValidAbsoluteUrl u = true → (parseDatetime d).isSome = false →
      scanSnapshots (u :: d :: rest) =
        (⟨u, none⟩ :: (scanSnapshots (d :: rest)).1, (scanSnapshots (d :: rest)).2))
  ∧ (∀ u, isValidAbsoluteUrl u = true → scanSnapshots [u] = ([⟨u, none⟩], []))
  ∧ (∀ parts, List.Sublist ((scanSnapshots parts).1.map (fun s => s.uri)) parts) := by
  refine ⟨?_, ?_, ?_, ?_, ?_, scanSnapshots_sublist⟩
  · intro s hs
    simp [parseVersionUrl, hs]
  · intro u rest hv
    match rest with
    | [] => simp [scanSnapshots, hv]
    | d :: rest2 => simp [scanSnapshots, hv]
  · intro u d rest hv hd
    simp [scanSnapshots, hv, hd]
  · intro u d rest hv hd
    simp [scanSnapshots, hv, hd]
  · intro u hv
    simp [scanSnapshots, hv]

/-- Witness for C3 at concrete token lists, matching the spec's scenarios for
`parseSnapshotList`. -/
theorem parseVersionUrl_c3_witness :
    parseVersionUrl (some "http://a.com 20230101000000 http://b.com") =
      [⟨"http://a.com", some "20230101000000"⟩, ⟨"http://b.com", none⟩]
  ∧ scanSnapshots ["bad-token", "http://a.com"] =
      ([⟨"http://a.com", none⟩], [skipWarning "bad-token"]) := by
  constructor
  · rw [(parseVersionUrl_c3.1) "http://a.com 20230101000000 http://b.com" (by decide)]
    have h1 : spaceTokens "http://a.com 20230101000000 http://b.com" =
        ["http://a.com", "20230101000000", "http://b.com"] := by decide
    rw [h1, (parseVersionUrl_c3.2.2.1) "http://a.com" "20230101000000" ["http://b.com"]
      (by decide) (by decide)]
    rw [(parseVersionUrl_c3.2.2.2.2.1) "http://b.com" (by decide)]
  · rw [(parseVersionUrl_c3.2.1) "bad-token" ["http://a.com"] (by decide)]
    rw [(parseVersionUrl_c3.2.2.2.2.1) "http://a.com" (by decide)]

theorem splitAtSpaces_ne_nil (cs : List Char) : splitAtSpaces cs ≠ [] := by
  induction cs with
  | nil => simp [splitAtSpaces]
  | cons c rest ih =>
    by_cases hc : c = ' '
    · subst hc; simp [splitAtSpaces]
    · simp only [splitAtSpaces, hc]
      cases hs : splitAtSpaces rest with
      | nil => simp
      | cons t ts => simp

theorem splitAtSpaces_append (as bs : List Char) :
    splitAtSpaces (as ++ ' ' :: bs) = splitAtSpaces as ++ splitAtSpaces bs := by
  induction as with
  | nil => simp [splitAtSpaces]
  | cons c as2 ih =>
    by_cases hc : c = ' '
    · subst hc
      simp only [List.cons_append, splitAtSpaces]
      simpa using ih
    · simp only [List.cons_append, splitAtSpaces, hc, ih]
      cases hsp : splitAtSpaces as2 with
      | nil => exact absurd hsp (splitAtSpaces_ne_nil as2)
      | cons t ts => simp

theorem mem_of_mem_splitAtSpaces :
    ∀ (cs : List Char) (t : List Char), t ∈ splitAtSpaces cs → ∀ c ∈ t, c ∈ cs := by
  intro cs
  induction cs with
  | nil =>
    intro t ht c hc
    simp [splitAtSpaces] at ht
    subst ht
    simp at hc
  | cons a rest ih =>
    intro t ht c hc
    by_cases ha : a = ' '
    · subst ha
      simp only [splitAtSpaces, List.mem_cons] at ht
      rcases ht with rfl | ht
      · simp at hc
      · exact List.mem_cons_of_mem _ (ih t ht c hc)
    · simp only [splitAtSpaces, ha] at ht
      cases hsp : splitAtSpaces rest with
      | nil => exact absurd hsp (splitAtSpaces_ne_nil rest)
      | cons t0 ts =>
        rw [hsp] at ht
        simp only [List.mem_cons] at ht
        rcases ht with rfl | ht
        · simp only [List.mem_cons] at hc
          rcases hc with rfl | hc
          · simp
          · exact List.mem_cons_of_mem _ (ih t0 (by rw [hsp]; simp) c hc)
        · exact List.mem_cons_of_mem _ (ih t (by rw [hsp]; simp [ht]) c hc)

theorem isValidAbsoluteUrl_false_of_ws (cs : List Char)
    (hws : ∀ c ∈ cs, isJsWs c = true) : isValidAbsoluteUrl (String.mk cs) = false := by
  have hall : ∀ c ∈ cs, isC0Space c = true := by
    intro c hc
    have := hws c hc
    simp only [isJsWs, Bool.or_eq_true, decide_eq_true_eq] at this
    simp only [isC0Space, decide_eq_true_eq]
    rcases this with ((((h | h) | h) | h) | h) | h <;> subst_eqs <;> first | rfl | omega | decide
  have htrim : trimC0Space cs = [] := by
    unfold trimC0Space
    have h1 : cs.dropWhile isC0Space = [] := by
      rw [List.dropWhile_eq_nil_iff]
      intro x hx
      exact hall x hx
    rw [h1]
    simp
  unfold isValidAbsoluteUrl jsURL
  rw [show (String.mk cs).data = cs from rfl, htrim]
  simp [splitScheme]

theorem scanSnapshots_all_invalid :
    ∀ parts : List String, (∀ u ∈ parts, isValidAbsoluteUrl u = false) →
      (scanSnapshots parts).1 = []
  | [], _ => by simp [scanSnapshots]
  | u :: rest, h => by
    have hu : isValidAbsoluteUrl u = false := h u (by simp)
    match rest with
    | [] => simp [scanSnapshots, hu]
    | d :: r2 =>
      simp only [scanSnapshots, hu, Bool.not_false, if_true]
      exact scanSnapshots_all_invalid (d :: r2) (fun v hv => h v (by simp [hv]))

theorem parseVersionUrl_ws_only (s : String) (h : ∀ c ∈ s.data, isJsWs c = true) :
    parseVersionUrl (some s) = [] := by
  by_cases hs : s = ""
  · simp [parseVersionUrl, hs]
  · simp only [parseVersionUrl]
    rw [if_neg hs]
    apply scanSnapshots_all_invalid
    intro u hu
    simp only [spaceTokens, List.mem_map, List.mem_filter] at hu
    obtain ⟨t, ⟨htmem, htne⟩, rfl⟩ := hu
    exact isValidAbsoluteUrl_false_of_ws t
      (fun c hc => h c (mem_of_mem_splitAtSpaces s.data t htmem c hc))

/-- Counterexample for C7 as stated: the tokenizer splits only on the space
character U+0020, not on general whitespace — a tab-separated pair stays one
token (which the WHATWG URL parser then accepts, tabs being stripped), so the
result differs from scanning whitespace-split tokens. -/
theorem c7_counterexample :
    parseVersionUrl (some "http://a.com\tjunk") ≠
      (scanSnapshots (wsTokens "http://a.com\tjunk")).1 := by decide

/-- C7 amended: absent input, the empty string, and whitespace-only input all
yield the empty sequence (never an error); otherwise the input is split on
runs of the space character U+0020 only — other whitespace is not a separator
— with empty tokens discarded (a separator next to another separator
contributes nothing), and the resulting tokens are scanned. -/
theorem parseVersionUrl_c7_amended :
    parseVersionUrl none = []
  ∧ parseVersionUrl (some "") = []
  ∧ (∀ s : String, (∀ c ∈ s.data, isJsWs c = true) → parseVersionUrl (some s) = [])
  ∧ (∀ s, s ≠ "" → parseVersionUrl (some s) = (scanSnapshots (spaceTokens s)).1)
  ∧ (∀ s : String, [] ∉ (splitAtSpaces s.data).filter (fun t => !t.isEmpty))
  ∧ (∀ as bs : List Char,
      (splitAtSpaces (as ++ ' ' :: bs)).filter (fun t => !t.isEmpty) =
        (splitAtSpaces as).filter (fun t => !t.isEmpty) ++
          (splitAtSpaces bs).filter (fun t => !t.isEmpty)) := by
  refine ⟨rfl, rfl, parseVersionUrl_ws_only, ?_, ?_, ?_⟩
  · intro s hs
    simp [parseVersionUrl, hs]
  · intro s
    simp [List.mem_filter]
  · intro as bs
    rw [splitAtSpaces_append, List.filter_append]

/-- Witness for C7 (amended) on concrete inputs: a whitespace-only string, a
multi-space run, and a plain two-token list. -/
theorem parseVersionUrl_c7_witness :
    parseVersionUrl (some " \t ") = []
  ∧ parseVersionUrl (some "http://a.com  20230101") =
      (scanSnapshots (spaceTokens "http://a.com  20230101")).1
  ∧ spaceTokens "http://a.com  20230101" = ["http://a.com", "20230101"] := by
  refine ⟨parseVersionUrl_c7_amended.2.2.1 " \t " (by decide),
    parseVersionUrl_c7_amended.2.2.2.1 "http://a.com  20230101" (by decide), by decide⟩

theorem getSubstitution_no_dollar :
    ∀ (rep matched before after : List Char), (∀ c ∈ rep, c ≠ '$') →
      getSubstitution rep matched before after = rep
  | [], _, _, _, _ => rfl
  | c :: r, matched, before, after, h => by
    have hc : c ≠ '$' := h c (by simp)
    rw [getSubstitution.eq_def]
    dsimp only
    rw [if_neg hc,
      getSubstitution_no_dollar r matched before after (fun x hx => h x (by simp [hx]))]

theorem digit_ne_dollar {c : Char} (h : isDigitCh c = true) : c ≠ '$' := by
  intro heq
  subst heq
  simp [isDigitCh] at h

theorem natStrAux_digits :
    ∀ (f n : Nat) (acc : List Char), (∀ c ∈ acc, isDigitCh c = true) →
      ∀ c ∈ natStrAux f n acc, isDigitCh c = true
  | 0, n, acc, h => h
  | f + 1, n, acc, h => by
    simp only [natStrAux]
    split
    · next hn =>
      intro c hc
      rcases List.mem_cons.mp hc with rfl | hc2
      · exact isDigitCh_digitChar hn
      · exact h c hc2
    · exact natStrAux_digits f (n / 10) _ (by
        intro c hc
        rcases List.mem_cons.mp hc with rfl | hc2
        · exact isDigitCh_digitChar (Nat.mod_lt _ (by omega))
        · exact h c hc2)

theorem intStr_ne_dollar (i : Int) : ∀ c ∈ intStr i, c ≠ '$' := by
  intro c hc
  unfold intStr at hc
  split at hc
  · rcases List.mem_cons.mp hc with rfl | hc2
    · decide
    · exact digit_ne_dollar (natStrAux_digits _ _ [] (by simp) c hc2)
  · exact digit_ne_dollar (natStrAux_digits _ _ [] (by simp) c hc)

theorem pad2L_ne_dollar (n : Nat) : ∀ c ∈ pad2L n, c ≠ '$' := by
  intro c hc
  simp only [pad2L, List.mem_cons, List.not_mem_nil, or_false] at hc
  rcases hc with rfl | rfl <;>
    exact digit_ne_dollar (isDigitCh_digitChar (Nat.mod_lt _ (by omega)))

theorem formatDateTime_ne_dollar (dt : JsDate) : ∀ c ∈ (formatDateTime dt).data, c ≠ '$' := by
  intro c hc
  simp only [formatDateTime, List.mem_append] at hc
  rcases hc with ((((hc | hc) | hc) | hc) | hc) | hc
  · exact intStr_ne_dollar _ c hc
  all_goals exact pad2L_ne_dollar _ c hc

theorem jsReplaceFirst_eq_literal (s pat rep : String) (h : ∀ c ∈ rep.data, c ≠ '$') :
    jsReplaceFirst s pat rep = literalReplaceFirst s pat rep := by
  unfold jsReplaceFirst literalReplaceFirst
  cases hf : findSub s.data pat.data with
  | none => rfl
  | some i =>
    dsimp only
    rw [getSubstitution_no_dollar rep.data pat.data (List.take i s.data)
      (List.drop (i + pat.data.length) s.data) h]

/-- Counterexample for C5 as stated: the original URI is not inserted
verbatim — `String.prototype.replace` interprets `$`-escape sequences in the
replacement, so a valid URL containing `$&` is mangled (the matched token
`<urir>` reappears in the output instead of the `$&`). -/
theorem c5_counterexample :
    isValidAbsoluteUrl "http://x.com/$&a" = true
  ∧ createMementoUri ⟨"https://archive.example/", "https://archive.example/<datetime>/<urir>"⟩
      "http://x.com/$&a" (some ⟨2023, 5, 15, 12, 30, 45⟩) =
      Except.ok "https://archive.example/20230515123045/http://x.com/<urir>a"
  ∧ literalReplaceFirst (literalReplaceFirst "https://archive.example/<datetime>/<urir>"
        "<datetime>" (formatDateTime ⟨2023, 5, 15, 12, 30, 45⟩)) "<urir>" "http://x.com/$&a" =
      "https://archive.example/20230515123045/http://x.com/$&a"
  ∧ ("https://archive.example/20230515123045/http://x.com/<urir>a" : String) ≠
      "https://archive.example/20230515123045/http://x.com/$&a" :=
  ⟨by decide, rfl, by decide, by decide⟩

/-- C5 amended: `createMementoUri` fails `InvalidOriginalUrl` exactly when
the validator rejects `originalUrl`; with a datetime it substitutes the first
occurrence of each placeholder, inserting the formatted datetime and the
original URI under JavaScript replacement-string semantics (which is the
verbatim insertion the spec describes whenever the URI contains no dollar
character); with the datetime omitted it returns the TimeGate base
concatenated with the original URI, with no template expansion. -/
theorem createMementoUri_c5_amended :
    (∀ cfg url dt, isValidAbsoluteUrl url = false →
        createMementoUri cfg url dt = Except.error RLError.InvalidOriginalUrl)
  ∧ (∀ cfg url dt, createMementoUri cfg url dt = Except.error RLError.InvalidOriginalUrl →
        isValidAbsoluteUrl url = false)
  ∧ (∀ cfg url (dt : JsDate), isValidAbsoluteUrl url = true →
        createMementoUri cfg url (some dt) = Except.ok (jsReplaceFirst
          (jsReplaceFirst cfg.urimPattern "<datetime>" (formatDateTime dt)) "<urir>" url))
  ∧ (∀ cfg url, isValidAbsoluteUrl url = true →
        createMementoUri cfg url none = Except.ok (cfg.timeGate ++ url))
  ∧ (∀ cfg url (dt : JsDate), isValidAbsoluteUrl url = true → (∀ c ∈ url.data, c ≠ '$') →
        createMementoUri cfg url (some dt) = Except.ok (literalReplaceFirst
          (literalReplaceFirst cfg.urimPattern "<datetime>" (formatDateTime dt))
          "<urir>" url)) := by
  refine ⟨?_, ?_, ?_, ?_, ?_⟩
  · intro cfg url dt hv
    simp [createMementoUri, hv]
  · intro cfg url dt h
    cases hv : isValidAbsoluteUrl url with
    | false => rfl
    | true =>
      exfalso
      unfold createMementoUri at h
      rw [hv] at h
      cases dt <;> simp at h
  · intro cfg url dt hv
    simp [createMementoUri, hv]
  · intro cfg url hv
    simp [createMementoUri, hv]
  · intro cfg url dt hv hnd
    simp only [createMementoUri, hv, Bool.not_true, Bool.false_eq_true, if_false,
      Except.ok.injEq]
    rw [jsReplaceFirst_eq_literal _ _ _ (formatDateTime_ne_dollar dt),
      jsReplaceFirst_eq_literal _ _ _ hnd]

/-- Witness for C5 (amended) at concrete inputs: the spec's
`buildMementoUri` scenario, the TimeGate-to-latest shortcut, and a rejected
original URL. -/
theorem createMementoUri_c5_witness :
    createMementoUri (mkRLConfig "https://archive.example/") "http://x.com"
        (some ⟨2023, 5, 15, 12, 30, 45⟩) =
      Except.ok "https://archive.example/20230515123045/http://x.com"
  ∧ createMementoUri (mkRLConfig "https://web.archive.org/") "http://x.com" none =
      Except.ok "https://web.archive.org/http://x.com"
  ∧ createMementoUri (mkRLConfig "https://web.archive.org/") "not-a-url" none =
      Except.error RLError.InvalidOriginalUrl := by
  refine ⟨?_, ?_, ?_⟩
  · exact (createMementoUri_c5_amended.2.2.2.2 (mkRLConfig "https://archive.example/")
      "http://x.com" ⟨2023, 5, 15, 12, 30, 45⟩ (by decide) (by decide)).trans (by rfl)
  · exact (createMementoUri_c5_amended.2.2.2.1 (mkRLConfig "https://web.archive.org/")
      "http://x.com" (by decide)).trans (by rfl)
  · exact createMementoUri_c5_amended.1 (mkRLConfig "https://web.archive.org/")
      "not-a-url" none (by decide)

/-- C8 (code bug): `formatDateTime` does not zero-pad the year
(`String(date.getUTCFullYear())` with no `padStart`), so a `PointInTime` with
year 999 — reachable through `parseDatetime("0999-01-01")` — yields 13
characters, contradicting the function's own documented 14-digit contract. -/
theorem formatDateTime_c8_bug :
    parseDatetime "0999-01-01" = some ⟨999, 1, 1, 12, 0, 0⟩
  ∧ formatDateTime ⟨999, 1, 1, 12, 0, 0⟩ = "9990101120000"
  ∧ ("9990101120000" : String).length = 13
  ∧ formatDateTime ⟨2023, 10, 26, 14, 30, 0⟩ = "20231026143000"
  ∧ ("20231026143000" : String).length = 14 := by
  refine ⟨by decide, by decide, by decide, by decide, by decide⟩

/-- C9: the archive classifier reports `true` exactly when the URL matches at
least one pattern (compiled with literal dots escaped, anchored to the start,
case-insensitive); matching is existential, so the result is invariant under
permutation of the pattern list; and the asynchronously-loading variant
reports `false` with a diagnostic — rather than blocking or throwing — while
its patterns are not yet loaded. -/
theorem isKnownArchive_c9 :
    (∀ url, isArchiveUrl url = true ↔ ∃ p ∈ archivePatterns, regexTestCI p url = true)
  ∧ (∀ pats url, isKnownArchiveWith pats url = true ↔ ∃ p ∈ pats, regexTestCI p url = true)
  ∧ (∀ pats1 pats2 url, pats1.Perm pats2 →
      isKnownArchiveWith pats1 url = isKnownArchiveWith pats2 url)
  ∧ (∀ st url, st.archivePatternRegexes = none →
      (isKnownArchiveAsync st url).1 = false ∧ (isKnownArchiveAsync st url).2 ≠ [])
  ∧ isArchiveUrl "https://web.archive.org/web/20230101000000/http://x.com" = true
  ∧ isArchiveUrl "HTTPS://ARCHIVE.IS/abc" = true
  ∧ isArchiveUrl "http://wayback.archive-it.org/1234/xyz" = true
  ∧ isArchiveUrl "http://wayback.archive-it.org/abc/xyz" = false
  ∧ isArchiveUrl "https://perma.cc/AB12-ZX98/" = true
  ∧ isArchiveUrl "https://example.com/" = false := by
  have hexist : ∀ pats url, isKnownArchiveWith pats url = true ↔
      ∃ p ∈ pats, regexTestCI p url = true := by
    intro pats url
    simp [isKnownArchiveWith, List.any_eq_true]
  refine ⟨fun url => hexist archivePatterns url, hexist, ?_, ?_, by decide, by decide,
    by decide, by decide, by decide, by decide⟩
  · intro pats1 pats2 url hperm
    cases h1 : isKnownArchiveWith pats1 url with
    | true =>
      obtain ⟨p, hp, ht⟩ := (hexist pats1 url).mp h1
      exact ((hexist pats2 url).mpr ⟨p, hperm.mem_iff.mp hp, ht⟩).symm
    | false =>
      cases h2 : isKnownArchiveWith pats2 url with
      | false => rfl
      | true =>
        obtain ⟨p, hp, ht⟩ := (hexist pats2 url).mp h2
        rw [← h1, (hexist pats1 url).mpr ⟨p, hperm.mem_iff.mpr hp, ht⟩]
  · intro st url hnone
    simp [isKnownArchiveAsync, hnone]

/-- Witness for C9 at a not-yet-loaded classifier state and a concrete
permutation of a two-pattern list. -/
theorem isKnownArchive_c9_witness :
    (isKnownArchiveAsync ⟨none⟩ "https://web.archive.org/web/1").1 = false
  ∧ (isKnownArchiveAsync ⟨none⟩ "https://web.archive.org/web/1").2 ≠ []
  ∧ isKnownArchiveWith ["https?://archive.li/", "https?://web.archive.org/web/"]
        "https://web.archive.org/web/1" =
      isKnownArchiveWith ["https?://web.archive.org/web/", "https?://archive.li/"]
        "https://web.archive.org/web/1" := by
  have h1 := isKnownArchive_c9.2.2.2.1 ⟨none⟩ "https://web.archive.org/web/1" rfl
  refine ⟨h1.1, h1.2, ?_⟩
  exact isKnownArchive_c9.2.2.1 _ _ "https://web.archive.org/web/1"
    (List.Perm.swap _ _ _)
